import Mathlib

/-!
# snek: the game-state engine of `main.go`

A shallow embedding of the simulation part of `src/main.go` (vectors, the
snake, the game state, `reset`, `tick`, `randomPos`, `changeDirection`) and
theorems about it.

Conventions of the embedding

* Go `int` is a 64-bit two's complement integer: values are `Int`, and every
  `+` / `-` of the source goes through `wrapInt`.
* A Go slice is a `List`.
* A run-time panic (index out of range, integer division by zero) is `none`.
* `rand.Int()` is an input: a natural number, and for `tick`, which may draw
  several times, a stream `Nat → Nat` whose entry `0` is the next draw.
* `time.Now()` is an input `now`, an instant in nanoseconds.
-/

namespace Snek

/-! ## Machine integers -/

/-- Result of a Go `int` operation whose mathematical value is `n`:
reduction to the signed 64-bit range `[-2^63, 2^63)`. -/
def wrapInt (n : Int) : Int :=
  (n + 9223372036854775808) % 18446744073709551616 - 9223372036854775808

/-- Values a Go `int` can hold. -/
def isGoInt (n : Int) : Prop :=
  -9223372036854775808 ≤ n ∧ n < 9223372036854775808

instance (n : Int) : Decidable (isGoInt n) := by
  unfold isGoInt; infer_instance

/-! ## Entity model -/

/-- Go `type vector struct { x, y int }`. -/
structure vector where
  x : Int
  y : Int
deriving DecidableEq, Repr

/-- Go `func (v vector) Add(w vector) vector`. -/
def vector.Add (v w : vector) : vector :=
  ⟨wrapInt (v.x + w.x), wrapInt (v.y + w.y)⟩

def directionUp : vector := ⟨0, -1⟩
def directionDown : vector := ⟨0, 1⟩
def directionLeft : vector := ⟨-1, 0⟩
def directionRight : vector := ⟨1, 0⟩

/-- Go `type snake struct`. -/
structure snake where
  body : List vector
  direction : vector
  dead : Bool
deriving DecidableEq, Repr

/-- Go `type snakeGame struct`; `messageExpiration` is an instant in
nanoseconds. -/
structure snakeGame where
  player : snake
  fruits : List vector
  width : Int
  height : Int
  loop : Bool
  paused : Bool
  message : String
  messageExpiration : Int
deriving DecidableEq, Repr

/-- Three seconds, in nanoseconds (`time.Second * 3`). -/
def messageDuration : Int := 3000000000

/-- Go `func (g *snakeGame) showMessage(text string)`, with `time.Now()`
returning `now`. -/
def snakeGame.showMessage (g : snakeGame) (text : String) (now : Int) : snakeGame :=
  { g with message := text, messageExpiration := now + messageDuration }

/-- Go `func (s *snake) changeDirection(d vector)`. -/
def snake.changeDirection (s : snake) (d : vector) : snake :=
  match s.body with
  | b0 :: b1 :: _ => if b0.Add d = b1 then s else { s with direction := d }
  | _ => { s with direction := d }

/-- Go `func (s *snake) reset(x, y int) *snake`. -/
def snake.reset (s : snake) (x y : Int) : snake :=
  { s with body := [⟨x, y⟩], direction := directionUp, dead := false }

/-! ## Random placement -/

/-- The slice `choices` built by `randomPos`: the cells `(x, y)` with
`0 ≤ x < width`, `0 ≤ y < height`, in the order of the two nested loops,
that are not a key of the map `filled` (the body segments and the fruits). -/
def snakeGame.choices (g : snakeGame) : List vector :=
  let filled := g.player.body ++ g.fruits
  (List.range g.width.toNat).flatMap fun (x : Nat) =>
    (List.range g.height.toNat).filterMap fun (y : Nat) =>
      let p : vector := ⟨(x : Int), (y : Int)⟩
      if p ∈ filled then none else some p

/-- Go `func (g snakeGame) randomPos() vector`, with `rand.Int()` returning
`n`: `choices[n % len(choices)]`, a panic when `choices` is empty. -/
def snakeGame.randomPos (g : snakeGame) (n : Nat) : Option vector :=
  let choices := g.choices
  if choices.length = 0 then none else choices[n % choices.length]?

/-! ## Reset -/

/-- Go `func (g *snakeGame) reset(width, height int) *snakeGame`; `/` on Go
ints truncates toward zero. -/
def snakeGame.reset (g : snakeGame) (width height : Int) (now : Int) (n : Nat) :
    Option snakeGame :=
  let g := { g with player := g.player.reset (Int.tdiv width 2) (Int.tdiv height 2) }
  let g := { g with fruits := [] }
  let g := { g with width := width }
  let g := { g with height := height }
  match g.randomPos n with
  | none => none
  | some p => some { g with fruits := [p], messageExpiration := now }

/-! ## Tick -/

/-- Lines 63-74 of `tick`, applied to the head `body[0]`: the four
successive `if`s of loop mode. -/
def snakeGame.loopAround (g : snakeGame) (p : vector) : vector :=
  let p := if p.x < 0 then { p with x := wrapInt (g.width - 1) } else p
  let p := if p.x ≥ g.width then { p with x := 0 } else p
  let p := if p.y < 0 then { p with y := wrapInt (g.height - 1) } else p
  let p := if p.y ≥ g.height then { p with y := 0 } else p
  p

/-- The condition of lines 75-78 of `tick` on the head `body[0]`. -/
def snakeGame.outside (g : snakeGame) (p : vector) : Bool :=
  decide (p.x < 0) || decide (p.x ≥ g.width) || decide (p.y < 0) || decide (p.y ≥ g.height)

/-- Lines 84-89 of `tick`: the loop over `body[1:]`, comparing each segment
with the head `body[0]`. -/
def snakeGame.bodyCollision (g : snakeGame) (now : Int) (head : vector) :
    List vector → snakeGame
  | [] => g
  | s :: rest =>
    if s = head then
      snakeGame.bodyCollision
        ({ g with player := { g.player with dead := true } }.showMessage
          "You ran into yourself!" now) now head rest
    else snakeGame.bodyCollision g now head rest

/-- Lines 92-97 of `tick`: the loop `for i := range g.fruits`, from index `i`
with `k` indices left. -/
def snakeGame.fruitLoop : Nat → snakeGame → Nat → (Nat → Nat) → Option snakeGame
  | 0, g, _, _ => some g
  | k + 1, g, i, rnd =>
    match g.fruits[i]?, g.player.body with
    | some f, b0 :: rest =>
      if f = b0 then
        match g.randomPos (rnd 0) with
        | none => none
        | some p =>
          snakeGame.fruitLoop k
            { g with
              fruits := g.fruits.set i p,
              player := { g.player with
                body := (b0 :: rest) ++ [(b0 :: rest).getLast (by simp)] } }
            (i + 1) (fun j => rnd (j + 1))
      else snakeGame.fruitLoop k g (i + 1) rnd
    | _, _ => none

/-- Go `func (g *snakeGame) tick()`. -/
def snakeGame.tick (g : snakeGame) (now : Int) (rnd : Nat → Nat) : Option snakeGame :=
  if g.paused || g.player.dead then some g
  else
    match g.player.body with
    | [] => none
    | b0 :: rest =>
      -- Move the player.
      let moved := b0.Add g.player.direction
      let tail := (b0 :: rest).dropLast
      -- Loop the player around or check for collision with the walls.
      let head := if g.loop then g.loopAround moved else moved
      let g1 : snakeGame := { g with player := { g.player with body := head :: tail } }
      let g2 : snakeGame :=
        if g.loop then g1
        else if g.outside moved then
          { g1 with player := { g1.player with dead := true } }.showMessage
            "You ran into a wall!" now
        else g1
      -- Check for collision with body.
      let g3 := g2.bodyCollision now head tail
      -- Check for fruit collision.
      g3.fruitLoop g3.fruits.length 0 rnd

/-- The driver calling `tick` once per timer event: one `(now, rnd)` input per
tick, stopping at a panic. -/
def snakeGame.ticks (g : snakeGame) : List (Int × (Nat → Nat)) → Option snakeGame
  | [] => some g
  | e :: es =>
    match g.tick e.1 e.2 with
    | none => none
    | some g1 => snakeGame.ticks g1 es

/-- The head after the move and the wall policy of `tick`, for a state whose
head is `b0`. -/
def snakeGame.newHead (g : snakeGame) (b0 : vector) : vector :=
  if g.loop then g.loopAround (b0.Add g.player.direction) else b0.Add g.player.direction


/-- The state of `tick` when it reaches the fruit loop (line 91), for an
active state whose body is `b0 :: rest`: the player has moved, the wall policy
and the body-collision loop have run. -/
def snakeGame.beforeFruits (g : snakeGame) (now : Int) (b0 : vector) (rest : List vector) :
    snakeGame :=
  let moved := b0.Add g.player.direction
  let tail := (b0 :: rest).dropLast
  let head := if g.loop then g.loopAround moved else moved
  let g1 : snakeGame := { g with player := { g.player with body := head :: tail } }
  let g2 : snakeGame :=
    if g.loop then g1
    else if g.outside moved then
      { g1 with player := { g1.player with dead := true } }.showMessage
        "You ran into a wall!" now
    else g1
  g2.bodyCollision now head tail

/-- The state predicate "no fruit position equals any snake body segment". -/
def snakeGame.fruitsOffBody (g : snakeGame) : Prop :=
  ∀ f ∈ g.fruits, f ∉ g.player.body

instance (g : snakeGame) : Decidable g.fruitsOffBody := by
  unfold snakeGame.fruitsOffBody; infer_instance

/-! ## Tick period (lines 205-206 and 227-234 of `main`) -/

/-- The initial tick period `time.Millisecond * 200`, in nanoseconds
(`time.Duration` is an `int64`). -/
def initialSpeed : Int := 200000000

/-- The event `'+'`: `speed = speed * 3 / 4`, with wrapping multiplication and
truncating division. -/
def speedUp (p : Int) : Int := Int.tdiv (wrapInt (p * 3)) 4

/-- The event `'-'`: `speed = speed * 4 / 3`, with wrapping multiplication and
truncating division. -/
def speedDown (p : Int) : Int := Int.tdiv (wrapInt (p * 4)) 3

/-- The two speed keys. -/
inductive speedKey where
  | plus
  | minus
deriving DecidableEq, Repr

/-- The period after a sequence of speed keys, handled in order. -/
def speedAfter : List speedKey → Int → Int
  | [], p => p
  | speedKey.plus :: ks, p => speedAfter ks (speedUp p)
  | speedKey.minus :: ks, p => speedAfter ks (speedDown p)

/-- The period after `k` presses of `'+'` from the initial period. -/
def speedLow : Nat → Int
  | 0 => initialSpeed
  | k + 1 => speedUp (speedLow k)

/-- The period after `k` presses of `'-'` from the initial period. -/
def speedHigh : Nat → Int
  | 0 => initialSpeed
  | k + 1 => speedDown (speedHigh k)

/-- Every period along a run of speed keys from `p`, the starting one
included, is strictly positive. -/
def speedStaysPositive : List speedKey → Int → Prop
  | [], p => 0 < p
  | speedKey.plus :: ks, p => 0 < p ∧ speedStaysPositive ks (speedUp p)
  | speedKey.minus :: ks, p => 0 < p ∧ speedStaysPositive ks (speedDown p)

/-- Along a run of speed keys from `p`, every `'+'` is pressed at a period of
at least 2 ns and every `'-'` at a period below `2^61` ns. -/
def speedGuarded : List speedKey → Int → Prop
  | [], _ => True
  | speedKey.plus :: ks, p => 2 ≤ p ∧ speedGuarded ks (speedUp p)
  | speedKey.minus :: ks, p => p < 2305843009213693952 ∧ speedGuarded ks (speedDown p)

/-! ## Concrete states used to instantiate the theorems -/

/-- A dead snake on a 10x10 board, used to instantiate C1. -/
def deadGame : snakeGame :=
  ⟨⟨[⟨10, 5⟩], directionRight, true⟩, [⟨5, 4⟩], 10, 10, false, false,
    "You ran into a wall!", 42⟩

/-- A fresh game value (Go zero value), used to instantiate C2. -/
def zeroGame : snakeGame := ⟨⟨[], ⟨0, 0⟩, false⟩, [], 0, 0, false, false, "", 0⟩


/-- Two fruits on the cell above the head of a one-segment snake (C3). -/
def twoFruitGame : snakeGame :=
  ⟨⟨[⟨5, 5⟩], directionUp, false⟩, [⟨5, 4⟩, ⟨5, 4⟩], 10, 10, false, false, "", 0⟩

/-- Board 10x10, head at (9,5) facing Right, loop mode on (C4). -/
def loopEdgeGame : snakeGame :=
  ⟨⟨[⟨9, 5⟩, ⟨8, 5⟩], directionRight, false⟩, [⟨3, 3⟩], 10, 10, true, false, "", 0⟩

/-- Board 10x10, head at (9,5) facing Right, loop mode off (C5). -/
def wallEdgeGame : snakeGame :=
  ⟨⟨[⟨9, 5⟩, ⟨8, 5⟩], directionRight, false⟩, [⟨3, 3⟩], 10, 10, false, false, "", 0⟩

/-- Loop mode off, head at (9,5) facing Right, and a second segment already
at (10,5), outside the 10x10 board: the move leaves the board and lands on a
segment of the shifted body (C5). -/
def wallSelfGame : snakeGame :=
  ⟨⟨[⟨9, 5⟩, ⟨10, 5⟩, ⟨10, 6⟩], directionRight, false⟩, [⟨3, 3⟩], 10, 10, false, false,
    "", 0⟩

/-- A snake curled so that moving Up puts the head on `body[3]` (C6). -/
def curledGame : snakeGame :=
  ⟨⟨[⟨5, 5⟩, ⟨6, 5⟩, ⟨6, 4⟩, ⟨5, 4⟩, ⟨4, 4⟩], directionUp, false⟩, [⟨3, 3⟩], 10, 10, false,
    false, "", 0⟩

/-- A two-segment snake that moved Up and whose direction was then changed to
Left, before the next tick (C7). -/
def turnedSnake : snake := ⟨[⟨5, 5⟩, ⟨5, 6⟩], directionLeft, false⟩

/-- A two-segment snake that has just moved Up (C7). -/
def movedUpSnake : snake := ⟨[⟨5, 5⟩, ⟨5, 6⟩], directionUp, false⟩

/-- Board 10x10, snake at (5,5) facing Up, one fruit at (5,4) (C9). -/
def fruitAheadGame : snakeGame :=
  ⟨⟨[⟨5, 5⟩], directionUp, false⟩, [⟨5, 4⟩], 10, 10, false, false, "", 0⟩

/-- A 2x1 board whose left cell holds the snake (C8). -/
def twoCellGame : snakeGame :=
  ⟨⟨[⟨0, 0⟩], directionUp, false⟩, [], 2, 1, false, false, "", 0⟩

/-- A snake stretched to the right of its head (5,5) and heading Left (C11). -/
def leftwardSnake : snake := ⟨[⟨5, 5⟩, ⟨6, 5⟩, ⟨7, 5⟩], directionLeft, false⟩

/-- A three-segment snake facing Up with one fruit on the cell above its
head (C12). -/
def growGame : snakeGame :=
  ⟨⟨[⟨5, 5⟩, ⟨5, 6⟩, ⟨5, 7⟩], directionUp, false⟩, [⟨5, 4⟩], 10, 10, false, false, "", 0⟩

/-- A 2x1 board whose two cells hold the snake and the fruit (C13). -/
def fullGame : snakeGame :=
  ⟨⟨[⟨0, 0⟩], directionUp, false⟩, [⟨1, 0⟩], 2, 1, false, false, "", 0⟩

/-- A paused, dead game in loop mode (C15). -/
def pausedGame : snakeGame :=
  ⟨⟨[⟨12, 3⟩, ⟨11, 3⟩], directionRight, true⟩, [⟨2, 2⟩], 12, 8, true, true,
    "You ran into a wall!", 99⟩

/-- Loop mode off, head at (5,0) facing Up on a 10x10 board, with segments
above the board: the move to (5,-1) leaves the board and lands on `body[1]`
(C16). -/
def aboveBoardGame : snakeGame :=
  ⟨⟨[⟨5, 0⟩, ⟨5, -1⟩, ⟨6, -1⟩], directionUp, false⟩, [⟨3, 3⟩], 10, 10, false, false, "", 0⟩

/-- A square loop of four segments, heading Left onto the cell of its own
last segment (C17). -/
def tailChaseGame : snakeGame :=
  ⟨⟨[⟨5, 5⟩, ⟨5, 4⟩, ⟨4, 4⟩, ⟨4, 5⟩], directionLeft, false⟩, [⟨3, 3⟩], 10, 10, false,
    false, "", 0⟩

/-- The snake of `tailChaseGame` one segment longer, its last two segments on
the same cell (4,5) as right after growth, heading Left onto that cell
(C17). -/
def grownTailGame : snakeGame :=
  ⟨⟨[⟨5, 5⟩, ⟨5, 4⟩, ⟨4, 4⟩, ⟨4, 5⟩, ⟨4, 5⟩], directionLeft, false⟩, [⟨3, 3⟩], 10, 10, false,
    false, "", 0⟩

/-! ## Lemmas on `randomPos` -/

theorem mem_choices (g : snakeGame) (p : vector) :
    p ∈ g.choices ↔
      (0 ≤ p.x ∧ p.x < g.width ∧ 0 ≤ p.y ∧ p.y < g.height) ∧
        p ∉ g.player.body ∧ p ∉ g.fruits := by
  unfold snakeGame.choices
  simp only [List.mem_flatMap, List.mem_filterMap, List.mem_range, List.mem_append]
  constructor
  · rintro ⟨a, ha, b, hb, hab⟩
    split at hab
    · exact absurd hab (by simp)
    · rename_i hnot
      have hp : p = ⟨(a : Int), (b : Int)⟩ := by
        simpa using hab.symm
      subst hp
      refine ⟨⟨by simp, by simp; omega, by simp, by simp; omega⟩, ?_, ?_⟩
      · exact fun h => hnot (Or.inl h)
      · exact fun h => hnot (Or.inr h)
  · rintro ⟨⟨hx0, hxw, hy0, hyh⟩, hb, hf⟩
    refine ⟨p.x.toNat, by omega, p.y.toNat, by omega, ?_⟩
    have hx : ((p.x.toNat : Nat) : Int) = p.x := Int.toNat_of_nonneg hx0
    have hy : ((p.y.toNat : Nat) : Int) = p.y := Int.toNat_of_nonneg hy0
    simp only [hx, hy]
    rw [if_neg]
    rintro (h | h)
    · exact hb h
    · exact hf h

theorem randomPos_mem (g : snakeGame) (n : Nat) (p : vector)
    (h : g.randomPos n = some p) : p ∈ g.choices := by
  unfold snakeGame.randomPos at h
  simp only at h
  split at h
  · exact absurd h (by simp)
  · exact List.getElem?_mem h

theorem randomPos_eq_none (g : snakeGame) (n : Nat) :
    g.randomPos n = none ↔ g.choices = [] := by
  unfold snakeGame.randomPos
  simp only
  constructor
  · intro h
    split at h
    · rename_i h0
      exact List.length_eq_zero.mp h0
    · rename_i h0
      have : n % g.choices.length < g.choices.length :=
        Nat.mod_lt _ (Nat.pos_of_ne_zero h0)
      rw [List.getElem?_eq_getElem this] at h
      exact absurd h (by simp)
  · intro h
    simp [h]

theorem randomPos_surj (g : snakeGame) (p : vector) (h : p ∈ g.choices) :
    ∃ n, n < g.choices.length ∧ g.randomPos n = some p := by
  obtain ⟨i, hi, hp⟩ := List.getElem_of_mem h
  refine ⟨i, hi, ?_⟩
  unfold snakeGame.randomPos
  simp only
  rw [if_neg (by omega), Nat.mod_eq_of_lt hi, List.getElem?_eq_getElem hi, hp]


/-! ## Paused and dead states -/

/-- C1: in a state where `paused` is true or the snake is dead, `tick` returns
the state itself (every field unchanged), whatever the clock and the random
draws; hence any number of successive ticks leaves such a state unchanged. -/
theorem tick_noop_paused_or_dead (g : snakeGame)
    (h : g.paused = true ∨ g.player.dead = true) :
    (∀ now rnd, g.tick now rnd = some g) ∧ ∀ es, g.ticks es = some g := by
  have h1 : ∀ now rnd, g.tick now rnd = some g := by
    intro now rnd
    unfold snakeGame.tick
    rw [if_pos]
    rcases h with h | h <;> simp [h]
  refine ⟨h1, ?_⟩
  intro es
  induction es with
  | nil => rfl
  | cons e es ih =>
    unfold snakeGame.ticks
    rw [h1 e.1 e.2]
    exact ih

/-- Instance of C1 at a dead state: one tick and three successive ticks. -/
theorem tick_noop_paused_or_dead_witness :
    deadGame.player.dead = true ∧
      deadGame.tick 7 (fun _ => 3) = some deadGame ∧
      deadGame.ticks [(7, fun _ => 3), (8, fun _ => 0), (9, fun k => k)] = some deadGame :=
  ⟨rfl, (tick_noop_paused_or_dead deadGame (Or.inr rfl)).1 7 (fun _ => 3),
    (tick_noop_paused_or_dead deadGame (Or.inr rfl)).2 _⟩

/-! ## Reset -/

/-- C2: whenever `reset w h` completes, the body is the single segment
`(w/2, h/2)`, the direction is Up `(0,-1)`, `dead` is false, the extents are
`w` and `h`, and there is exactly one fruit, inside `[0,w) x [0,h)` and not on
the snake's cell. -/
theorem reset_post (g : snakeGame) (w h now : Int) (n : Nat) (g' : snakeGame)
    (hr : g.reset w h now n = some g') :
    g'.player.body = [⟨Int.tdiv w 2, Int.tdiv h 2⟩] ∧
      g'.player.direction = ⟨0, -1⟩ ∧
      g'.player.dead = false ∧
      g'.width = w ∧ g'.height = h ∧
      ∃ f, g'.fruits = [f] ∧ (0 ≤ f.x ∧ f.x < w ∧ 0 ≤ f.y ∧ f.y < h) ∧
        f ≠ ⟨Int.tdiv w 2, Int.tdiv h 2⟩ := by
  unfold snakeGame.reset at hr
  simp only at hr
  split at hr
  · exact absurd hr (by simp)
  · rename_i p hp
    have hg := Option.some.inj hr
    subst hg
    have hm := (mem_choices _ _).1 (randomPos_mem _ _ _ hp)
    refine ⟨rfl, rfl, rfl, rfl, rfl, p, rfl, hm.1, ?_⟩
    intro hpe
    apply hm.2.1
    simp [snake.reset, hpe]

/-- Instance of C2: `reset 10 10` on a fresh game with draw 54. -/
theorem reset_post_witness :
    zeroGame.reset 10 10 0 54 =
        some ⟨⟨[⟨5, 5⟩], directionUp, false⟩, [⟨5, 4⟩], 10, 10, false, false, "", 0⟩ ∧
      ∃ f, [(⟨5, 4⟩ : vector)] = [f] ∧ (0 ≤ f.x ∧ f.x < 10 ∧ 0 ≤ f.y ∧ f.y < 10) ∧
        f ≠ ⟨Int.tdiv 10 2, Int.tdiv 10 2⟩ :=
  ⟨by decide,
    (reset_post zeroGame 10 10 0 54
      ⟨⟨[⟨5, 5⟩], directionUp, false⟩, [⟨5, 4⟩], 10, 10, false, false, "", 0⟩
      (by decide)).2.2.2.2.2⟩


/-! ## Lemmas on `tick` -/

theorem bodyCollision_frame (now : Int) (head : vector) (l : List vector) :
    ∀ g : snakeGame,
      (g.bodyCollision now head l).player.body = g.player.body ∧
      (g.bodyCollision now head l).player.direction = g.player.direction ∧
      (g.bodyCollision now head l).fruits = g.fruits ∧
      (g.bodyCollision now head l).width = g.width ∧
      (g.bodyCollision now head l).height = g.height ∧
      (g.bodyCollision now head l).loop = g.loop ∧
      (g.bodyCollision now head l).paused = g.paused := by
  induction l with
  | nil => intro g; simp [snakeGame.bodyCollision]
  | cons s l ih =>
    intro g
    unfold snakeGame.bodyCollision
    split
    · have := ih ({ g with player := { g.player with dead := true } }.showMessage
        "You ran into yourself!" now)
      simpa [snakeGame.showMessage] using this
    · exact ih g

theorem bodyCollision_of_not_mem (now : Int) (head : vector) (l : List vector)
    (h : head ∉ l) : ∀ g : snakeGame, g.bodyCollision now head l = g := by
  induction l with
  | nil => intro g; rfl
  | cons s l ih =>
    intro g
    unfold snakeGame.bodyCollision
    rw [if_neg (fun e => h (by simp [e]))]
    exact ih (fun e => h (List.mem_cons_of_mem _ e)) g

theorem bodyCollision_of_mem (now : Int) (head : vector) (l : List vector) :
    ∀ g : snakeGame,
      (head ∈ l ∨ (g.player.dead = true ∧ g.message = "You ran into yourself!")) →
      (g.bodyCollision now head l).player.dead = true ∧
      (g.bodyCollision now head l).message = "You ran into yourself!" := by
  induction l with
  | nil =>
    intro g h
    rcases h with h | h
    · exact absurd h (by simp)
    · exact h
  | cons s l ih =>
    intro g h
    unfold snakeGame.bodyCollision
    split
    · exact ih _ (Or.inr ⟨rfl, rfl⟩)
    · rename_i hne
      apply ih g
      rcases h with h | h
      · rcases List.mem_cons.1 h with h | h
        · exact absurd h.symm hne
        · exact Or.inl h
      · exact Or.inr h

theorem tick_active (g : snakeGame) (now : Int) (rnd : Nat → Nat) (b0 : vector)
    (rest : List vector) (hp : g.paused = false) (hd : g.player.dead = false)
    (hb : g.player.body = b0 :: rest) :
    g.tick now rnd = (g.beforeFruits now b0 rest).fruitLoop g.fruits.length 0 rnd := by
  unfold snakeGame.tick
  rw [if_neg (by simp [hp, hd])]
  simp only [hb]
  unfold snakeGame.beforeFruits
  simp only
  congr 1
  rw [(bodyCollision_frame _ _ _ _).2.2.1]
  split <;> [skip; split] <;> rfl

theorem beforeFruits_frame (g : snakeGame) (now : Int) (b0 : vector) (rest : List vector) :
    (g.beforeFruits now b0 rest).player.body = g.newHead b0 :: (b0 :: rest).dropLast ∧
    (g.beforeFruits now b0 rest).player.direction = g.player.direction ∧
    (g.beforeFruits now b0 rest).fruits = g.fruits ∧
    (g.beforeFruits now b0 rest).width = g.width ∧
    (g.beforeFruits now b0 rest).height = g.height ∧
    (g.beforeFruits now b0 rest).loop = g.loop ∧
    (g.beforeFruits now b0 rest).paused = g.paused := by
  unfold snakeGame.beforeFruits snakeGame.newHead
  simp only
  have h := bodyCollision_frame now (if g.loop then g.loopAround (b0.Add g.player.direction)
    else b0.Add g.player.direction) (b0 :: rest).dropLast
  obtain ⟨h1, h2, h3, h4, h5, h6, h7⟩ := h
    (if g.loop then { g with player := { g.player with body :=
        (if g.loop then g.loopAround (b0.Add g.player.direction)
          else b0.Add g.player.direction) :: (b0 :: rest).dropLast } }
      else if g.outside (b0.Add g.player.direction) then
        ({ g with player := { g.player with body :=
          (if g.loop then g.loopAround (b0.Add g.player.direction)
            else b0.Add g.player.direction) :: (b0 :: rest).dropLast, dead := true } }).showMessage
          "You ran into a wall!" now
      else { g with player := { g.player with body :=
        (if g.loop then g.loopAround (b0.Add g.player.direction)
          else b0.Add g.player.direction) :: (b0 :: rest).dropLast } })
  rw [h1, h2, h3, h4, h5, h6, h7]
  split <;> [skip; split] <;> simp [snakeGame.showMessage]

theorem fruitLoop_spec (b0 last : vector) :
    ∀ (k : Nat) (g : snakeGame) (i : Nat) (rnd : Nat → Nat) (g' : snakeGame),
      g.player.body.head? = some b0 → g.player.body.getLast? = some last →
      i + k = g.fruits.length →
      snakeGame.fruitLoop k g i rnd = some g' →
      g'.player.body =
          g.player.body ++ List.replicate (List.count b0 (g.fruits.drop i)) last ∧
        g'.player.direction = g.player.direction ∧
        g'.player.dead = g.player.dead ∧
        g'.width = g.width ∧ g'.height = g.height ∧
        g'.loop = g.loop ∧ g'.paused = g.paused ∧
        g'.message = g.message ∧ g'.messageExpiration = g.messageExpiration ∧
        g'.fruits.length = g.fruits.length := by
  intro k
  induction k with
  | zero =>
    intro g i rnd g' _ _ hik h
    simp only [snakeGame.fruitLoop, Option.some.injEq] at h
    subst h
    have : g.fruits.drop i = [] := List.drop_eq_nil_of_le (by omega)
    simp [this]
  | succ k ih =>
    intro g i rnd g' hh hl hik h
    have hi : i < g.fruits.length := by omega
    obtain ⟨b, rest, hb⟩ : ∃ b rest, g.player.body = b :: rest := by
      cases hbody : g.player.body with
      | nil => rw [hbody] at hh; exact absurd hh (by simp)
      | cons b rest => exact ⟨b, rest, rfl⟩
    have hb0 : b = b0 := by
      rw [hb] at hh
      simpa using hh
    subst hb0
    have hlast : (b :: rest).getLast (by simp) = last := by
      rw [hb, List.getLast?_eq_getLast _ (by simp)] at hl
      exact Option.some.inj hl
    unfold snakeGame.fruitLoop at h
    rw [List.getElem?_eq_getElem hi] at h
    simp only [hb] at h
    rw [List.drop_eq_getElem_cons hi, List.count_cons]
    split at h
    · rename_i hf
      split at h
      · exact absurd h (by simp)
      · rename_i p hp
        have := ih _ (i + 1) _ g' (by simp)
          (by rw [hlast]; exact List.getLast?_concat (b :: rest)) (by simp; omega) h
        obtain ⟨h1, h2, h3, h4, h5, h6, h7, h8, h9, h10⟩ := this
        simp only [List.length_set] at h10
        refine ⟨?_, h2, h3, h4, h5, h6, h7, h8, h9, h10⟩
        rw [h1, hb, hlast]
        simp only [List.drop_set_of_lt _ _ (Nat.lt_succ_self i)]
        rw [hf, beq_self_eq_true, if_pos rfl, List.replicate_succ]
        simp
    · rename_i hf
      have := ih g (i + 1) rnd g' hh hl (by omega) h
      obtain ⟨h1, h2, h3, h4, h5, h6, h7, h8, h9, h10⟩ := this
      refine ⟨?_, h2, h3, h4, h5, h6, h7, h8, h9, h10⟩
      rw [h1]
      have : (g.fruits[i] == b) = false := by simpa using hf
      simp [this]

/-! ## Growth -/

/-- C3: for an active state with non-empty body, whenever `tick` completes, the
new body length is the old one plus the number of fruits lying on the new head
(the moved head, wrapped in loop mode); so the length is unchanged when no fruit
is on the new head, and it never decreases. -/
theorem tick_body_length (g : snakeGame) (now : Int) (rnd : Nat → Nat) (b0 : vector)
    (rest : List vector) (g' : snakeGame)
    (hp : g.paused = false) (hd : g.player.dead = false)
    (hb : g.player.body = b0 :: rest) (ht : g.tick now rnd = some g') :
    g'.player.body.length = g.player.body.length + g.fruits.count (g.newHead b0) ∧
      (g.newHead b0 ∉ g.fruits → g'.player.body.length = g.player.body.length) ∧
      g.player.body.length ≤ g'.player.body.length := by
  rw [tick_active g now rnd b0 rest hp hd hb] at ht
  obtain ⟨hbody, _, hfr, _⟩ := beforeFruits_frame g now b0 rest
  have hlen : ((b0 :: rest).dropLast).length + 1 = (b0 :: rest).length := by
    simp
  have hne : g.newHead b0 :: (b0 :: rest).dropLast ≠ [] := by simp
  have := fruitLoop_spec (g.newHead b0)
    ((g.newHead b0 :: (b0 :: rest).dropLast).getLast hne) g.fruits.length
    (g.beforeFruits now b0 rest) 0 rnd g'
    (by rw [hbody]; rfl)
    (by rw [hbody]; exact List.getLast?_eq_getLast _ hne)
    (by rw [hfr]; simp) ht
  have h1 := this.1
  rw [hbody, hfr, List.drop_zero] at h1
  have hmain : g'.player.body.length =
      g.player.body.length + g.fruits.count (g.newHead b0) := by
    rw [h1, hb, List.length_append, List.length_replicate, List.length_cons, hlen]
  refine ⟨hmain, ?_, by omega⟩
  intro hnot
  rw [hmain, List.count_eq_zero_of_not_mem hnot]
  rfl

/-- Instance of C3 with two fruits on the new head: the body grows by two. -/
theorem tick_body_length_witness :
    twoFruitGame.tick 0 (fun _ => 0) =
        some ⟨⟨[⟨5, 4⟩, ⟨5, 4⟩, ⟨5, 4⟩], directionUp, false⟩, [⟨0, 0⟩, ⟨0, 1⟩], 10, 10,
          false, false, "", 0⟩ ∧
      [(⟨5, 4⟩ : vector), ⟨5, 4⟩, ⟨5, 4⟩].length = 1 + 2 :=
  ⟨by decide,
    (tick_body_length twoFruitGame 0 (fun _ => 0) ⟨5, 5⟩ []
      ⟨⟨[⟨5, 4⟩, ⟨5, 4⟩, ⟨5, 4⟩], directionUp, false⟩, [⟨0, 0⟩, ⟨0, 1⟩], 10, 10,
        false, false, "", 0⟩ rfl rfl rfl (by decide)).1⟩

theorem fruitLoop_of_not_mem (b0 : vector) :
    ∀ (k : Nat) (g : snakeGame) (i : Nat) (rnd : Nat → Nat),
      g.player.body.head? = some b0 → i + k = g.fruits.length →
      b0 ∉ g.fruits.drop i → snakeGame.fruitLoop k g i rnd = some g := by
  intro k
  induction k with
  | zero => intro g i rnd _ _ _; rfl
  | succ k ih =>
    intro g i rnd hh hik hnot
    have hi : i < g.fruits.length := by omega
    obtain ⟨b, rest, hb⟩ : ∃ b rest, g.player.body = b :: rest := by
      cases hbody : g.player.body with
      | nil => rw [hbody] at hh; exact absurd hh (by simp)
      | cons b rest => exact ⟨b, rest, rfl⟩
    have hb0 : b = b0 := by
      rw [hb] at hh
      simpa using hh
    subst hb0
    rw [List.drop_eq_getElem_cons hi] at hnot
    unfold snakeGame.fruitLoop
    rw [List.getElem?_eq_getElem hi]
    simp only [hb]
    rw [if_neg (fun e => hnot (by simp [e]))]
    exact ih g (i + 1) rnd hh (by omega) (fun e => hnot (List.mem_cons_of_mem _ e))

theorem wrapInt_of_isGoInt (n : Int) (h : isGoInt n) : wrapInt n = n := by
  unfold isGoInt at h
  unfold wrapInt
  omega

/-- One coordinate of `loopAround` after a unit step from inside the board. -/
theorem loop_coord (w x d : Int) (hw1 : 1 ≤ w) (hw : isGoInt w) (hx0 : 0 ≤ x) (hxw : x < w)
    (hd : d = -1 ∨ d = 0 ∨ d = 1) :
    (if (if wrapInt (x + d) < 0 then wrapInt (w - 1) else wrapInt (x + d)) ≥ w then 0
      else (if wrapInt (x + d) < 0 then wrapInt (w - 1) else wrapInt (x + d))) =
      (x + d) % w := by
  have hw' := hw
  unfold isGoInt at hw'
  have h1 : wrapInt (x + d) = x + d := wrapInt_of_isGoInt _ (by unfold isGoInt; omega)
  have h2 : wrapInt (w - 1) = w - 1 := wrapInt_of_isGoInt _ (by unfold isGoInt; omega)
  rw [h1, h2]
  by_cases hneg : x + d < 0
  · have hxd : x + d = -1 := by omega
    rw [if_pos hneg, if_neg (by omega), hxd]
    have : (-1 : Int) % w = (-1 + w) % w := by simp
    rw [this, Int.emod_eq_of_lt (by omega) (by omega)]
    omega
  · rw [if_neg hneg]
    by_cases hge : x + d ≥ w
    · have hxd : x + d = w := by omega
      rw [if_pos hge, hxd, Int.emod_self]
    · rw [if_neg hge, Int.emod_eq_of_lt (by omega) (by omega)]

theorem loopAround_eq (g : snakeGame) (p : vector) :
    g.loopAround p =
      ⟨if (if p.x < 0 then wrapInt (g.width - 1) else p.x) ≥ g.width then 0
          else (if p.x < 0 then wrapInt (g.width - 1) else p.x),
        if (if p.y < 0 then wrapInt (g.height - 1) else p.y) ≥ g.height then 0
          else (if p.y < 0 then wrapInt (g.height - 1) else p.y)⟩ := by
  unfold snakeGame.loopAround
  simp only
  split_ifs <;> simp_all

theorem newHead_loop (g : snakeGame) (b0 : vector) (hloop : g.loop = true)
    (hw : 1 ≤ g.width) (hh : 1 ≤ g.height) (hwi : isGoInt g.width) (hhi : isGoInt g.height)
    (hin : 0 ≤ b0.x ∧ b0.x < g.width ∧ 0 ≤ b0.y ∧ b0.y < g.height)
    (hdir : g.player.direction = directionUp ∨ g.player.direction = directionDown ∨
      g.player.direction = directionLeft ∨ g.player.direction = directionRight) :
    g.newHead b0 =
      ⟨(b0.x + g.player.direction.x) % g.width, (b0.y + g.player.direction.y) % g.height⟩ := by
  unfold snakeGame.newHead
  rw [if_pos hloop, loopAround_eq]
  simp only [vector.Add]
  have hx : g.player.direction.x = -1 ∨ g.player.direction.x = 0 ∨ g.player.direction.x = 1 := by
    rcases hdir with h | h | h | h <;> rw [h] <;>
      simp [directionUp, directionDown, directionLeft, directionRight]
  have hy : g.player.direction.y = -1 ∨ g.player.direction.y = 0 ∨ g.player.direction.y = 1 := by
    rcases hdir with h | h | h | h <;> rw [h] <;>
      simp [directionUp, directionDown, directionLeft, directionRight]
  rw [loop_coord g.width b0.x _ hw hwi hin.1 hin.2.1 hx,
    loop_coord g.height b0.y _ hh hhi hin.2.2.1 hin.2.2.2 hy]

/-- What a completed `tick` of an active state returns, in terms of the state
reached before the fruit loop. -/
theorem tick_spec (g : snakeGame) (now : Int) (rnd : Nat → Nat) (b0 : vector)
    (rest : List vector) (g' : snakeGame)
    (hp : g.paused = false) (hd : g.player.dead = false)
    (hb : g.player.body = b0 :: rest) (ht : g.tick now rnd = some g') :
    g'.player.body =
        (g.newHead b0 :: (b0 :: rest).dropLast) ++
          List.replicate (g.fruits.count (g.newHead b0))
            ((g.newHead b0 :: (b0 :: rest).dropLast).getLast (by simp)) ∧
      g'.player.direction = g.player.direction ∧
      g'.player.dead = (g.beforeFruits now b0 rest).player.dead ∧
      g'.width = g.width ∧ g'.height = g.height ∧
      g'.loop = g.loop ∧ g'.paused = g.paused ∧
      g'.message = (g.beforeFruits now b0 rest).message ∧
      g'.messageExpiration = (g.beforeFruits now b0 rest).messageExpiration ∧
      g'.fruits.length = g.fruits.length := by
  rw [tick_active g now rnd b0 rest hp hd hb] at ht
  obtain ⟨hbody, hdir, hfr, hw, hh, hl, hpa⟩ := beforeFruits_frame g now b0 rest
  have hne : g.newHead b0 :: (b0 :: rest).dropLast ≠ [] := by simp
  have := fruitLoop_spec (g.newHead b0)
    ((g.newHead b0 :: (b0 :: rest).dropLast).getLast hne) g.fruits.length
    (g.beforeFruits now b0 rest) 0 rnd g'
    (by rw [hbody]; rfl)
    (by rw [hbody]; exact List.getLast?_eq_getLast _ hne)
    (by rw [hfr]; simp) ht
  obtain ⟨h1, h2, h3, h4, h5, h6, h7, h8, h9, h10⟩ := this
  rw [hbody, hfr, List.drop_zero] at h1
  exact ⟨h1, h2.trans hdir, h3, h4.trans hw, h5.trans hh, h6.trans hl, h7.trans hpa, h8, h9,
    h10.trans (by rw [hfr])⟩

/-- A `tick` of an active state with non-empty body completes when no fruit is
on the new head. -/
theorem tick_completes (g : snakeGame) (now : Int) (rnd : Nat → Nat) (b0 : vector)
    (rest : List vector) (hp : g.paused = false) (hd : g.player.dead = false)
    (hb : g.player.body = b0 :: rest) (hf : g.newHead b0 ∉ g.fruits) :
    g.tick now rnd = some (g.beforeFruits now b0 rest) := by
  rw [tick_active g now rnd b0 rest hp hd hb]
  obtain ⟨hbody, _, hfr, _⟩ := beforeFruits_frame g now b0 rest
  rw [← hfr]
  exact fruitLoop_of_not_mem (g.newHead b0) _ _ 0 rnd (by rw [hbody]; rfl) (by simp)
    (by rw [hfr]; simpa using hf)

theorem beforeFruits_collide (g : snakeGame) (now : Int) (b0 : vector) (rest : List vector)
    (hc : g.newHead b0 ∈ (b0 :: rest).dropLast) :
    (g.beforeFruits now b0 rest).player.dead = true ∧
      (g.beforeFruits now b0 rest).message = "You ran into yourself!" := by
  unfold snakeGame.beforeFruits
  exact bodyCollision_of_mem now _ _ _ (Or.inl hc)

theorem beforeFruits_loop_free (g : snakeGame) (now : Int) (b0 : vector) (rest : List vector)
    (hloop : g.loop = true) (hc : g.newHead b0 ∉ (b0 :: rest).dropLast) :
    (g.beforeFruits now b0 rest).player.dead = g.player.dead ∧
      (g.beforeFruits now b0 rest).message = g.message ∧
      (g.beforeFruits now b0 rest).messageExpiration = g.messageExpiration := by
  unfold snakeGame.newHead at hc
  unfold snakeGame.beforeFruits
  simp only
  rw [bodyCollision_of_not_mem now _ _ hc]
  simp [hloop]

theorem beforeFruits_wall (g : snakeGame) (now : Int) (b0 : vector) (rest : List vector)
    (hloop : g.loop = false) (ho : g.outside (b0.Add g.player.direction) = true) :
    (g.beforeFruits now b0 rest).player.dead = true ∧
      (g.newHead b0 ∉ (b0 :: rest).dropLast →
        (g.beforeFruits now b0 rest).message = "You ran into a wall!" ∧
        (g.beforeFruits now b0 rest).messageExpiration = now + messageDuration) := by
  by_cases hc : g.newHead b0 ∈ (b0 :: rest).dropLast
  · exact ⟨(beforeFruits_collide g now b0 rest hc).1, fun h => absurd hc h⟩
  · unfold snakeGame.newHead at hc
    unfold snakeGame.beforeFruits
    simp only
    rw [bodyCollision_of_not_mem now _ _ hc]
    simp [hloop, ho, snakeGame.showMessage]

theorem beforeFruits_inside (g : snakeGame) (now : Int) (b0 : vector) (rest : List vector)
    (hloop : g.loop = false) (ho : g.outside (b0.Add g.player.direction) = false)
    (hc : g.newHead b0 ∉ (b0 :: rest).dropLast) :
    (g.beforeFruits now b0 rest).player.dead = g.player.dead ∧
      (g.beforeFruits now b0 rest).message = g.message ∧
      (g.beforeFruits now b0 rest).messageExpiration = g.messageExpiration := by
  unfold snakeGame.newHead at hc
  unfold snakeGame.beforeFruits
  simp only
  rw [bodyCollision_of_not_mem now _ _ hc]
  simp [hloop, ho]

theorem tick_head (g : snakeGame) (now : Int) (rnd : Nat → Nat) (b0 : vector)
    (rest : List vector) (g' : snakeGame)
    (hp : g.paused = false) (hd : g.player.dead = false)
    (hb : g.player.body = b0 :: rest) (ht : g.tick now rnd = some g') :
    g'.player.body.head? = some (g.newHead b0) := by
  rw [(tick_spec g now rnd b0 rest g' hp hd hb ht).1]
  rfl

/-! ## Wall policy -/

/-- C4: in an active state with loop mode on, a board of at least one cell
(`width` and `height` being Go ints), the head inside the board and one of the
four unit directions, the head after `tick` is
`((x+dx) mod width, (y+dy) mod height)`, which lies inside the board; `dead`
becomes true exactly when that head is one of the pre-tick segments
`body[0 .. len-2]`, in which case the message is "You ran into yourself!", and
otherwise the message and its expiration are untouched (so the wall message
is never set). The tick completes when no fruit is on the new head. -/
theorem tick_loop_head (g : snakeGame) (now : Int) (rnd : Nat → Nat) (b0 : vector)
    (rest : List vector)
    (hp : g.paused = false) (hd : g.player.dead = false) (hloop : g.loop = true)
    (hw : 1 ≤ g.width) (hh : 1 ≤ g.height) (hwi : isGoInt g.width) (hhi : isGoInt g.height)
    (hb : g.player.body = b0 :: rest)
    (hin : 0 ≤ b0.x ∧ b0.x < g.width ∧ 0 ≤ b0.y ∧ b0.y < g.height)
    (hdir : g.player.direction = directionUp ∨ g.player.direction = directionDown ∨
      g.player.direction = directionLeft ∨ g.player.direction = directionRight) :
    (0 ≤ (b0.x + g.player.direction.x) % g.width ∧
        (b0.x + g.player.direction.x) % g.width < g.width ∧
        0 ≤ (b0.y + g.player.direction.y) % g.height ∧
        (b0.y + g.player.direction.y) % g.height < g.height) ∧
      ((⟨(b0.x + g.player.direction.x) % g.width,
            (b0.y + g.player.direction.y) % g.height⟩ : vector) ∉ g.fruits →
        ∃ g', g.tick now rnd = some g') ∧
      ∀ g', g.tick now rnd = some g' →
        g'.player.body.head? =
            some ⟨(b0.x + g.player.direction.x) % g.width,
              (b0.y + g.player.direction.y) % g.height⟩ ∧
          (g'.player.dead = true ↔
            (⟨(b0.x + g.player.direction.x) % g.width,
              (b0.y + g.player.direction.y) % g.height⟩ : vector) ∈ (b0 :: rest).dropLast) ∧
          ((⟨(b0.x + g.player.direction.x) % g.width,
              (b0.y + g.player.direction.y) % g.height⟩ : vector) ∈ (b0 :: rest).dropLast →
            g'.message = "You ran into yourself!") ∧
          ((⟨(b0.x + g.player.direction.x) % g.width,
              (b0.y + g.player.direction.y) % g.height⟩ : vector) ∉ (b0 :: rest).dropLast →
            g'.message = g.message ∧ g'.messageExpiration = g.messageExpiration) := by
  have hnh := newHead_loop g b0 hloop hw hh hwi hhi hin hdir
  rw [← hnh]
  refine ⟨?_, ?_, ?_⟩
  · exact ⟨Int.emod_nonneg _ (by omega), Int.emod_lt_of_pos _ (by omega),
      Int.emod_nonneg _ (by omega), Int.emod_lt_of_pos _ (by omega)⟩
  · intro hf
    exact ⟨_, tick_completes g now rnd b0 rest hp hd hb hf⟩
  · intro g' ht
    have hs := tick_spec g now rnd b0 rest g' hp hd hb ht
    refine ⟨tick_head g now rnd b0 rest g' hp hd hb ht, ?_, ?_, ?_⟩
    · rw [hs.2.2.1]
      constructor
      · intro hdead
        by_contra hc
        rw [(beforeFruits_loop_free g now b0 rest hloop hc).1, hd] at hdead
        exact absurd hdead (by simp)
      · intro hc
        exact (beforeFruits_collide g now b0 rest hc).1
    · intro hc
      rw [hs.2.2.2.2.2.2.2.1]
      exact (beforeFruits_collide g now b0 rest hc).2
    · intro hc
      rw [hs.2.2.2.2.2.2.2.1, hs.2.2.2.2.2.2.2.2.1]
      exact (beforeFruits_loop_free g now b0 rest hloop hc).2

/-- Instance of C4: 10x10, head (9,5), Right gives head (0,5), not dead. -/
theorem tick_loop_head_witness :
    loopEdgeGame.tick 7 (fun _ => 0) =
        some ⟨⟨[⟨0, 5⟩, ⟨9, 5⟩], directionRight, false⟩, [⟨3, 3⟩], 10, 10, true, false,
          "", 0⟩ ∧
      (some (⟨0, 5⟩ : vector) = some ⟨(9 + 1) % 10, (5 + 0) % 10⟩ ∧
        (false = true ↔ (⟨(9 + 1) % 10, (5 + 0) % 10⟩ : vector) ∈ [(⟨9, 5⟩ : vector)])) :=
  ⟨by decide,
    ((tick_loop_head loopEdgeGame 7 (fun _ => 0) ⟨9, 5⟩ [⟨8, 5⟩] rfl rfl rfl (by decide)
      (by decide) (by decide) (by decide) rfl (by decide) (Or.inr (Or.inr (Or.inr rfl)))).2.2
      ⟨⟨[⟨0, 5⟩, ⟨9, 5⟩], directionRight, false⟩, [⟨3, 3⟩], 10, 10, true, false, "", 0⟩
      (by decide)).1,
    ((tick_loop_head loopEdgeGame 7 (fun _ => 0) ⟨9, 5⟩ [⟨8, 5⟩] rfl rfl rfl (by decide)
      (by decide) (by decide) (by decide) rfl (by decide) (Or.inr (Or.inr (Or.inr rfl)))).2.2
      ⟨⟨[⟨0, 5⟩, ⟨9, 5⟩], directionRight, false⟩, [⟨3, 3⟩], 10, 10, true, false, "", 0⟩
      (by decide)).2.1⟩

/-- C5, counterexample: with loop mode off, head (9,5) facing Right on a 10x10
board and a segment already at (10,5), the new head (10,5) is outside the
board, yet the message after the tick is "You ran into yourself!", not
"You ran into a wall!". -/
theorem tick_wall_message_counterexample :
    wallSelfGame.paused = false ∧ wallSelfGame.player.dead = false ∧
      wallSelfGame.loop = false ∧
      wallSelfGame.outside ((⟨9, 5⟩ : vector).Add wallSelfGame.player.direction) = true ∧
      wallSelfGame.tick 7 (fun _ => 0) =
        some ⟨⟨[⟨10, 5⟩, ⟨9, 5⟩, ⟨10, 5⟩], directionRight, true⟩, [⟨3, 3⟩], 10, 10, false,
          false, "You ran into yourself!", 3000000007⟩ ∧
      ("You ran into yourself!" : String) ≠ "You ran into a wall!" := by
  decide

/-- C5, amended: in an active state with loop mode off and non-empty body, if
the new head (head + direction) lies outside `[0,width) x [0,height)`, then
after `tick` `dead` is true, and the message is "You ran into a wall!" unless
the new head also equals one of the pre-tick segments `body[0 .. len-2]`, in
which case it is "You ran into yourself!". The tick completes when no fruit is
on the new head. -/
theorem tick_wall_death (g : snakeGame) (now : Int) (rnd : Nat → Nat) (b0 : vector)
    (rest : List vector)
    (hp : g.paused = false) (hd : g.player.dead = false) (hloop : g.loop = false)
    (hb : g.player.body = b0 :: rest)
    (hout : ¬ (0 ≤ (b0.Add g.player.direction).x ∧ (b0.Add g.player.direction).x < g.width ∧
      0 ≤ (b0.Add g.player.direction).y ∧ (b0.Add g.player.direction).y < g.height)) :
    (b0.Add g.player.direction ∉ g.fruits → ∃ g', g.tick now rnd = some g') ∧
      ∀ g', g.tick now rnd = some g' →
        g'.player.dead = true ∧
          (b0.Add g.player.direction ∉ (b0 :: rest).dropLast →
            g'.message = "You ran into a wall!") ∧
          (b0.Add g.player.direction ∈ (b0 :: rest).dropLast →
            g'.message = "You ran into yourself!") := by
  have hnh : g.newHead b0 = b0.Add g.player.direction := by
    unfold snakeGame.newHead
    simp [hloop]
  have ho : g.outside (b0.Add g.player.direction) = true := by
    unfold snakeGame.outside
    simp only [Bool.or_eq_true, decide_eq_true_eq]
    omega
  rw [← hnh]
  refine ⟨fun hf => ⟨_, tick_completes g now rnd b0 rest hp hd hb hf⟩, ?_⟩
  intro g' ht
  have hs := tick_spec g now rnd b0 rest g' hp hd hb ht
  have hwall := beforeFruits_wall g now b0 rest hloop ho
  refine ⟨by rw [hs.2.2.1]; exact hwall.1, ?_, ?_⟩
  · intro hc
    rw [hs.2.2.2.2.2.2.2.1]
    exact (hwall.2 hc).1
  · intro hc
    rw [hs.2.2.2.2.2.2.2.1]
    exact (beforeFruits_collide g now b0 rest hc).2

/-- Instance of C5 as amended: 10x10, head (9,5), Right, loop mode off gives new
head (10,5), dead, wall message. -/
theorem tick_wall_death_witness :
    wallEdgeGame.tick 7 (fun _ => 0) =
        some ⟨⟨[⟨10, 5⟩, ⟨9, 5⟩], directionRight, true⟩, [⟨3, 3⟩], 10, 10, false, false,
          "You ran into a wall!", 3000000007⟩ ∧
      (true = true ∧
        ((⟨9, 5⟩ : vector).Add wallEdgeGame.player.direction ∉ [(⟨9, 5⟩ : vector)] →
          "You ran into a wall!" = "You ran into a wall!")) :=
  ⟨by decide,
    ((tick_wall_death wallEdgeGame 7 (fun _ => 0) ⟨9, 5⟩ [⟨8, 5⟩] rfl rfl rfl rfl
      (by decide)).2
      ⟨⟨[⟨10, 5⟩, ⟨9, 5⟩], directionRight, true⟩, [⟨3, 3⟩], 10, 10, false, false,
        "You ran into a wall!", 3000000007⟩ (by decide)).1,
    ((tick_wall_death wallEdgeGame 7 (fun _ => 0) ⟨9, 5⟩ [⟨8, 5⟩] rfl rfl rfl rfl
      (by decide)).2
      ⟨⟨[⟨10, 5⟩, ⟨9, 5⟩], directionRight, true⟩, [⟨3, 3⟩], 10, 10, false, false,
        "You ran into a wall!", 3000000007⟩ (by decide)).2.1⟩

/-! ## Self-collision -/

/-- C6: in an active state with non-empty body, if the new head (after the
wrap of loop mode, if any) equals one of the pre-tick segments
`body[0 .. len-2]`, i.e. a segment at index `≥ 1` of the shifted body, then
after `tick` `dead` is true and the message is "You ran into yourself!". The
tick completes when no fruit is on the new head. -/
theorem tick_self_collision (g : snakeGame) (now : Int) (rnd : Nat → Nat) (b0 : vector)
    (rest : List vector)
    (hp : g.paused = false) (hd : g.player.dead = false)
    (hb : g.player.body = b0 :: rest)
    (hc : g.newHead b0 ∈ (b0 :: rest).dropLast) :
    (g.newHead b0 ∉ g.fruits → ∃ g', g.tick now rnd = some g') ∧
      ∀ g', g.tick now rnd = some g' →
        g'.player.body.head? = some (g.newHead b0) ∧
          g'.player.dead = true ∧ g'.message = "You ran into yourself!" := by
  refine ⟨fun hf => ⟨_, tick_completes g now rnd b0 rest hp hd hb hf⟩, ?_⟩
  intro g' ht
  have hs := tick_spec g now rnd b0 rest g' hp hd hb ht
  refine ⟨tick_head g now rnd b0 rest g' hp hd hb ht, ?_, ?_⟩
  · rw [hs.2.2.1]
    exact (beforeFruits_collide g now b0 rest hc).1
  · rw [hs.2.2.2.2.2.2.2.1]
    exact (beforeFruits_collide g now b0 rest hc).2

/-- Instance of C6: the new head (5,4) equals the pre-tick `body[3]`. -/
theorem tick_self_collision_witness :
    curledGame.newHead ⟨5, 5⟩ = ⟨5, 4⟩ ∧
      curledGame.tick 7 (fun _ => 0) =
        some ⟨⟨[⟨5, 4⟩, ⟨5, 5⟩, ⟨6, 5⟩, ⟨6, 4⟩, ⟨5, 4⟩], directionUp, true⟩, [⟨3, 3⟩], 10,
          10, false, false, "You ran into yourself!", 3000000007⟩ ∧
      (true = true ∧ "You ran into yourself!" = "You ran into yourself!") :=
  ⟨by decide, by decide,
    ((tick_self_collision curledGame 7 (fun _ => 0) ⟨5, 5⟩
      [⟨6, 5⟩, ⟨6, 4⟩, ⟨5, 4⟩, ⟨4, 4⟩] rfl rfl rfl (by decide)).2
      ⟨⟨[⟨5, 4⟩, ⟨5, 5⟩, ⟨6, 5⟩, ⟨6, 4⟩, ⟨5, 4⟩], directionUp, true⟩, [⟨3, 3⟩], 10,
        10, false, false, "You ran into yourself!", 3000000007⟩ (by decide)).2⟩

/-! ## Direction changes -/

/-- C7, counterexample: a two-segment snake with head (5,5), second segment
(5,6) and current direction Left accepts the exact inverse, Right: the
direction changes although the body has more than one segment. -/
theorem changeDirection_inverse_counterexample :
    turnedSnake.body.length > 1 ∧
      (⟨-turnedSnake.direction.x, -turnedSnake.direction.y⟩ : vector) = directionRight ∧
      (turnedSnake.changeDirection
          ⟨-turnedSnake.direction.x, -turnedSnake.direction.y⟩).direction = directionRight ∧
      directionRight ≠ turnedSnake.direction := by
  decide

/-- C7, amended: for a snake with more than one segment whose head is one step
in the current direction from its second segment (`body[0] = body[1] +
direction`, the snake last moved in its current direction; the coordinates of
`body[1]` being Go ints), `changeDirection` with the exact inverse of the
current direction leaves the snake, and so its direction, unchanged. -/
theorem changeDirection_inverse (s : snake) (b0 b1 : vector) (rest : List vector)
    (hb : s.body = b0 :: b1 :: rest) (hx : isGoInt b1.x) (hy : isGoInt b1.y)
    (hmoved : b0 = b1.Add s.direction) :
    s.changeDirection ⟨-s.direction.x, -s.direction.y⟩ = s ∧
      (s.changeDirection ⟨-s.direction.x, -s.direction.y⟩).direction = s.direction := by
  have hback : b0.Add ⟨-s.direction.x, -s.direction.y⟩ = b1 := by
    rw [hmoved]
    unfold isGoInt at hx hy
    cases b1 with
    | mk x y =>
      simp only [vector.Add, vector.mk.injEq, wrapInt] at *
      constructor <;> omega
  have : s.changeDirection ⟨-s.direction.x, -s.direction.y⟩ = s := by
    unfold snake.changeDirection
    rw [hb]
    simp only
    rw [if_pos hback]
  exact ⟨this, by rw [this]⟩

/-- Instance of C7 as amended: a snake that moved Up refuses Down. -/
theorem changeDirection_inverse_witness :
    (movedUpSnake.changeDirection directionDown).direction = directionUp :=
  (changeDirection_inverse movedUpSnake ⟨5, 5⟩ ⟨5, 6⟩ [] rfl (by decide) (by decide)
    (by decide)).2

/-! ## Random placement -/

/-- C8: the values `randomPos` can return over all draws are exactly the
cells of `[0,width) x [0,height)` covered by neither a body segment nor a
fruit (each such cell is returned for a draw below `len(choices)`); the
result for draw `n` is `choices[n mod len(choices)]`; and when at least one
such cell exists `randomPos` returns for every draw. -/
theorem randomPos_range (g : snakeGame) :
    (∀ p, (∃ n, g.randomPos n = some p) ↔
        ((0 ≤ p.x ∧ p.x < g.width ∧ 0 ≤ p.y ∧ p.y < g.height) ∧
          p ∉ g.player.body ∧ p ∉ g.fruits)) ∧
      (∀ p, (0 ≤ p.x ∧ p.x < g.width ∧ 0 ≤ p.y ∧ p.y < g.height) →
        p ∉ g.player.body → p ∉ g.fruits →
        (∃ n, n < g.choices.length ∧ g.randomPos n = some p) ∧
          ∀ n, ∃ q, g.randomPos n = some q ∧ g.choices[n % g.choices.length]? = some q ∧
            (0 ≤ q.x ∧ q.x < g.width ∧ 0 ≤ q.y ∧ q.y < g.height) ∧
            q ∉ g.player.body ∧ q ∉ g.fruits) := by
  constructor
  · intro p
    constructor
    · rintro ⟨n, hn⟩
      exact (mem_choices g p).1 (randomPos_mem g n p hn)
    · intro h
      obtain ⟨n, _, hn⟩ := randomPos_surj g p ((mem_choices g p).2 h)
      exact ⟨n, hn⟩
  · intro p hin hb hf
    have hmem : p ∈ g.choices := (mem_choices g p).2 ⟨hin, hb, hf⟩
    refine ⟨randomPos_surj g p hmem, ?_⟩
    intro n
    cases hq : g.randomPos n with
    | none =>
      rw [(randomPos_eq_none g n).1 hq] at hmem
      exact absurd hmem (by simp)
    | some q =>
      refine ⟨q, rfl, ?_, (mem_choices g q).1 (randomPos_mem g n q hq)⟩
      unfold snakeGame.randomPos at hq
      simp only at hq
      split at hq
      · exact absurd hq (by simp)
      · exact hq

/-- Instance of C8 on a 2x1 board whose only free cell is (1,0). -/
theorem randomPos_range_witness :
    (∃ n, n < twoCellGame.choices.length ∧ twoCellGame.randomPos n = some ⟨1, 0⟩) ∧
      twoCellGame.randomPos 7 = some ⟨1, 0⟩ :=
  ⟨((randomPos_range twoCellGame).2 ⟨1, 0⟩ (by decide) (by decide) (by decide)).1, by decide⟩

theorem randomPos_isSome_of_free (g : snakeGame) (n : Nat) (p : vector)
    (hin : 0 ≤ p.x ∧ p.x < g.width ∧ 0 ≤ p.y ∧ p.y < g.height)
    (hb : p ∉ g.player.body) (hf : p ∉ g.fruits) :
    ∃ q, g.randomPos n = some q := by
  cases hq : g.randomPos n with
  | none =>
    have hmem : p ∈ g.choices := (mem_choices g p).2 ⟨hin, hb, hf⟩
    rw [(randomPos_eq_none g n).1 hq] at hmem
    exact absurd hmem (by simp)
  | some q => exact ⟨q, rfl⟩

/-! ## Eating a fruit -/

/-- C9, counterexample: from the 10x10 board with body [(5,5)], direction Up
and the fruit at (5,4), the tick with draw 54 places the new fruit at (5,5),
the cell the snake has just left. -/
theorem tick_fruit_scenario_counterexample :
    fruitAheadGame.tick 0 (fun _ => 54) =
      some ⟨⟨[⟨5, 4⟩, ⟨5, 4⟩], directionUp, false⟩, [⟨5, 5⟩], 10, 10, false, false,
        "", 0⟩ := by
  decide

/-- C9, amended: from the 10x10 board with body [(5,5)], direction Up, a single
fruit at (5,4), not paused and not dead, for every clock value and every random
draw one tick completes, moves the head to (5,4), makes the body
[(5,4),(5,4)] of length 2, and places the new fruit at a board cell other than
(5,4); the other fields are unchanged. -/
theorem tick_fruit_scenario (now : Int) (rnd : Nat → Nat) :
    ∃ f, fruitAheadGame.tick now rnd =
        some ⟨⟨[⟨5, 4⟩, ⟨5, 4⟩], directionUp, false⟩, [f], 10, 10, false, false, "", 0⟩ ∧
      f ≠ ⟨5, 4⟩ ∧ (0 ≤ f.x ∧ f.x < 10 ∧ 0 ≤ f.y ∧ f.y < 10) := by
  have hbf : fruitAheadGame.beforeFruits now ⟨5, 5⟩ [] =
      ⟨⟨[⟨5, 4⟩], directionUp, false⟩, [⟨5, 4⟩], 10, 10, false, false, "", 0⟩ := rfl
  rw [tick_active fruitAheadGame now rnd ⟨5, 5⟩ [] rfl rfl rfl, hbf]
  obtain ⟨q, hq⟩ := randomPos_isSome_of_free
    ⟨⟨[⟨5, 4⟩], directionUp, false⟩, [⟨5, 4⟩], 10, 10, false, false, "", 0⟩ (rnd 0) ⟨0, 0⟩
    (by decide) (by decide) (by decide)
  have hm := (mem_choices _ _).1 (randomPos_mem _ _ _ hq)
  refine ⟨q, ?_, ?_, hm.1⟩
  · have hlen : fruitAheadGame.fruits.length = 1 := rfl
    rw [hlen]
    unfold snakeGame.fruitLoop
    simp only [List.getElem?_cons_zero, if_true, hq]
    rfl
  · intro h
    apply hm.2.1
    rw [h]
    simp

/-! ## Reset on small boards -/

/-- C10, counterexample: on the 1x1 board the snake occupies the only cell, so
`randomPos` has no choice and `reset 1 1` faults. -/
theorem reset_one_by_one_counterexample :
    (1 : Int) ≥ 1 ∧ zeroGame.reset 1 1 0 0 = none := by
  decide

/-- C10, amended: for every `width ≥ 1` and `height ≥ 1` that are not both
equal to 1, every clock value and every random draw, `reset width height`
completes and returns a state with exactly one fruit. -/
theorem reset_completes (g : snakeGame) (w h now : Int) (n : Nat)
    (hw : 1 ≤ w) (hh : 1 ≤ h) (hne : ¬ (w = 1 ∧ h = 1)) :
    ∃ g' f, g.reset w h now n = some g' ∧ g'.fruits = [f] := by
  have hwd : Int.tdiv w 2 = w / 2 := Int.tdiv_eq_ediv (by omega) (by omega)
  have hhd : Int.tdiv h 2 = h / 2 := Int.tdiv_eq_ediv (by omega) (by omega)
  have hfree : ∃ p : vector, (0 ≤ p.x ∧ p.x < w ∧ 0 ≤ p.y ∧ p.y < h) ∧
      p ≠ ⟨Int.tdiv w 2, Int.tdiv h 2⟩ := by
    by_cases h2 : 2 ≤ w
    · refine ⟨⟨0, h / 2⟩, ⟨by simp, by simp; omega, by simp; omega, by simp; omega⟩, ?_⟩
      rw [hwd, hhd]
      intro he
      have := congrArg vector.x he
      simp only at this
      omega
    · refine ⟨⟨w / 2, 0⟩, ⟨by simp; omega, by simp; omega, by simp, by simp; omega⟩, ?_⟩
      rw [hwd, hhd]
      intro he
      have := congrArg vector.y he
      simp only at this
      omega
  obtain ⟨p, hin, hp⟩ := hfree
  obtain ⟨q, hq⟩ := randomPos_isSome_of_free
    { player := g.player.reset (Int.tdiv w 2) (Int.tdiv h 2), fruits := [], width := w,
      height := h, loop := g.loop, paused := g.paused, message := g.message,
      messageExpiration := g.messageExpiration } n p hin
    (by simpa [snake.reset] using hp) (by simp)
  refine ⟨(⟨g.player.reset (Int.tdiv w 2) (Int.tdiv h 2), [q], w, h, g.loop, g.paused,
    g.message, now⟩ : snakeGame), q, ?_, rfl⟩
  unfold snakeGame.reset
  simp only [hq]

/-- Instance of C10 as amended on the 2x1 board. -/
theorem reset_completes_witness :
    ∃ g' f, zeroGame.reset 2 1 0 5 = some g' ∧ g'.fruits = [f] :=
  reset_completes zeroGame 2 1 0 5 (by decide) (by decide) (by decide)

/-! ## Direction changes, in full -/

/-- C11: for every snake and every vector `d`, `changeDirection d` leaves the
direction unchanged if the body has more than one segment and
`body[0] + d = body[1]`, and otherwise sets the direction to `d`; in both cases
`body` and `dead` are unchanged. -/
theorem changeDirection_spec (s : snake) (d : vector) :
    (∀ b0 b1 rest, s.body = b0 :: b1 :: rest → b0.Add d = b1 →
        (s.changeDirection d).direction = s.direction) ∧
      ((¬ ∃ b0 b1 rest, s.body = b0 :: b1 :: rest ∧ b0.Add d = b1) →
        (s.changeDirection d).direction = d) ∧
      (s.changeDirection d).body = s.body ∧
      (s.changeDirection d).dead = s.dead := by
  unfold snake.changeDirection
  refine ⟨?_, ?_, ?_, ?_⟩
  · intro b0 b1 rest hb he
    rw [hb]
    simp only
    rw [if_pos he]
  · intro hno
    split
    · rename_i b0 b1 rest hb
      rw [if_neg (fun he => hno ⟨b0, b1, rest, hb, he⟩)]
    · rfl
  · split
    · split <;> rfl
    · rfl
  · split
    · split <;> rfl
    · rfl

/-- Instance of C11: a snake stretched to the right of its head refuses Right
and accepts Up. -/
theorem changeDirection_spec_witness :
    (leftwardSnake.changeDirection directionRight).direction = directionLeft ∧
      (leftwardSnake.changeDirection directionUp).direction = directionUp :=
  ⟨(changeDirection_spec leftwardSnake directionRight).1 ⟨5, 5⟩ ⟨6, 5⟩ [⟨7, 5⟩] rfl
      (by decide),
    (changeDirection_spec leftwardSnake directionUp).2.1 (by
      rintro ⟨b0, b1, rest, hb, he⟩
      have h0 : b0 = ⟨5, 5⟩ := by
        have := congrArg List.head? hb
        simpa [leftwardSnake] using this.symm
      have h1 : b1 = ⟨6, 5⟩ := by
        have := congrArg (fun l => l[1]?) hb
        simpa [leftwardSnake] using this.symm
      subst h0 h1
      revert he
      decide)⟩

/-! ## Shape of the grown body -/

/-- C12: for an active state with non-empty body in which exactly one fruit is
on the new head, whenever `tick` completes the new body has the old length
plus one, its first old-length cells are the new head followed by the old body
without its last segment, and its final cell is a copy of the cell just before
it, the last segment of the shifted body. -/
theorem tick_growth_shape (g : snakeGame) (now : Int) (rnd : Nat → Nat) (b0 : vector)
    (rest : List vector) (g' : snakeGame)
    (hp : g.paused = false) (hd : g.player.dead = false)
    (hb : g.player.body = b0 :: rest)
    (hone : g.fruits.count (g.newHead b0) = 1)
    (ht : g.tick now rnd = some g') :
    g'.player.body.length = g.player.body.length + 1 ∧
      g'.player.body.take g.player.body.length = g.newHead b0 :: (b0 :: rest).dropLast ∧
      g'.player.body =
        (g.newHead b0 :: (b0 :: rest).dropLast) ++
          [(g.newHead b0 :: (b0 :: rest).dropLast).getLast (by simp)] ∧
      g'.player.body[g.player.body.length]? = g'.player.body[g.player.body.length - 1]? := by
  have hs := (tick_spec g now rnd b0 rest g' hp hd hb ht).1
  rw [hone] at hs
  have hlen : (g.newHead b0 :: (b0 :: rest).dropLast).length = g.player.body.length := by
    rw [hb]
    simp
  have hbody : g'.player.body =
      (g.newHead b0 :: (b0 :: rest).dropLast) ++
        [(g.newHead b0 :: (b0 :: rest).dropLast).getLast (by simp)] := by
    rw [hs]
    rfl
  refine ⟨?_, ?_, hbody, ?_⟩
  · rw [hbody, List.length_append, hlen]
    rfl
  · rw [hbody, ← hlen, List.take_left']
    rfl
  · rw [hbody, ← hlen]
    rw [List.getElem?_append_right (Nat.le_refl _), Nat.sub_self,
      List.getElem?_append_left (by simp)]
    simp [List.getLast_eq_getElem]

/-- Instance of C12: a three-segment snake eating the fruit above its head. -/
theorem tick_growth_shape_witness :
    growGame.tick 0 (fun _ => 0) =
        some ⟨⟨[⟨5, 4⟩, ⟨5, 5⟩, ⟨5, 6⟩, ⟨5, 6⟩], directionUp, false⟩, [⟨0, 0⟩], 10, 10,
          false, false, "", 0⟩ ∧
      [(⟨5, 4⟩ : vector), ⟨5, 5⟩, ⟨5, 6⟩, ⟨5, 6⟩].length = 3 + 1 :=
  ⟨by decide,
    (tick_growth_shape growGame 0 (fun _ => 0) ⟨5, 5⟩ [⟨5, 6⟩, ⟨5, 7⟩]
      ⟨⟨[⟨5, 4⟩, ⟨5, 5⟩, ⟨5, 6⟩, ⟨5, 6⟩], directionUp, false⟩, [⟨0, 0⟩], 10, 10,
        false, false, "", 0⟩ rfl rfl rfl (by decide) (by decide)).1⟩

theorem bodyCollision_expiration (now : Int) (head : vector) (l : List vector) :
    ∀ g : snakeGame,
      (head ∈ l ∨ g.messageExpiration = now + messageDuration) →
      (g.bodyCollision now head l).messageExpiration = now + messageDuration := by
  induction l with
  | nil =>
    intro g h
    rcases h with h | h
    · exact absurd h (by simp)
    · exact h
  | cons s l ih =>
    intro g h
    unfold snakeGame.bodyCollision
    split
    · exact ih _ (Or.inr rfl)
    · rename_i hne
      apply ih g
      rcases h with h | h
      · rcases List.mem_cons.1 h with h | h
        · exact absurd h.symm hne
        · exact Or.inl h
      · exact Or.inr h

theorem beforeFruits_collide_full (g : snakeGame) (now : Int) (b0 : vector)
    (rest : List vector) (hc : g.newHead b0 ∈ (b0 :: rest).dropLast) :
    (g.beforeFruits now b0 rest).player.dead = true ∧
      (g.beforeFruits now b0 rest).message = "You ran into yourself!" ∧
      (g.beforeFruits now b0 rest).messageExpiration = now + messageDuration := by
  refine ⟨(beforeFruits_collide g now b0 rest hc).1, (beforeFruits_collide g now b0 rest hc).2,
    ?_⟩
  unfold snakeGame.beforeFruits
  exact bodyCollision_expiration now _ _ _ (Or.inl hc)

/-! ## Failure of `randomPos` -/

/-- C13: `randomPos` fails (empty `choices`, for every draw) if and only if every
cell of `[0,width) x [0,height)` is covered by a body segment or a fruit; in
particular it fails on every board with `width ≤ 0` or `height ≤ 0`. -/
theorem randomPos_fails_iff (g : snakeGame) (n : Nat) :
    (g.randomPos n = none ↔
        ∀ p : vector, (0 ≤ p.x ∧ p.x < g.width ∧ 0 ≤ p.y ∧ p.y < g.height) →
          p ∈ g.player.body ∨ p ∈ g.fruits) ∧
      (g.width ≤ 0 ∨ g.height ≤ 0 → g.randomPos n = none) := by
  have hiff : g.randomPos n = none ↔
      ∀ p : vector, (0 ≤ p.x ∧ p.x < g.width ∧ 0 ≤ p.y ∧ p.y < g.height) →
        p ∈ g.player.body ∨ p ∈ g.fruits := by
    rw [randomPos_eq_none]
    constructor
    · intro he p hin
      by_contra hcov
      have hmem : p ∈ g.choices :=
        (mem_choices g p).2 ⟨hin, fun h => hcov (Or.inl h), fun h => hcov (Or.inr h)⟩
      rw [he] at hmem
      exact absurd hmem (by simp)
    · intro hall
      apply List.eq_nil_iff_forall_not_mem.2
      intro p hp
      obtain ⟨hin, hb, hf⟩ := (mem_choices g p).1 hp
      rcases hall p hin with h | h
      · exact hb h
      · exact hf h
  refine ⟨hiff, ?_⟩
  intro hdeg
  apply hiff.2
  intro p hin
  omega

/-- Instance of C13: the full 2x1 board, and the fresh game of width 0. -/
theorem randomPos_fails_iff_witness :
    fullGame.randomPos 3 = none ∧ zeroGame.randomPos 3 = none :=
  ⟨(randomPos_fails_iff fullGame 3).1.2 (by
      intro p hin
      have hy : p.y = 0 := by
        have := hin.2.2
        simp only [fullGame] at this
        omega
      have hx : p.x = 0 ∨ p.x = 1 := by
        have := hin.1
        have := hin.2.1
        simp only [fullGame] at *
        omega
      cases p with
      | mk x y =>
        simp only at hx hy
        subst hy
        rcases hx with hx | hx <;> subst hx <;> simp [fullGame]),
    (randomPos_fails_iff zeroGame 3).2 (Or.inl (by decide))⟩

/-! ## What `reset` leaves alone -/

/-- C15: whenever `reset` completes, the `paused` flag and the `loop` flag are
exactly as they were, while `dead` is false. -/
theorem reset_keeps_flags (g : snakeGame) (w h now : Int) (n : Nat) (g' : snakeGame)
    (hr : g.reset w h now n = some g') :
    g'.paused = g.paused ∧ g'.loop = g.loop ∧ g'.player.dead = false := by
  unfold snakeGame.reset at hr
  simp only at hr
  split at hr
  · exact absurd hr (by simp)
  · have hg := Option.some.inj hr
    subst hg
    exact ⟨rfl, rfl, rfl⟩

/-- Instance of C15: a paused, dead game in loop mode stays paused and in loop
mode, and is alive again. -/
theorem reset_keeps_flags_witness :
    pausedGame.reset 12 8 5 0 =
        some ⟨⟨[⟨6, 4⟩], directionUp, false⟩, [⟨0, 0⟩], 12, 8, true, true,
          "You ran into a wall!", 5⟩ ∧
      (true = pausedGame.paused ∧ true = pausedGame.loop ∧ false = false) :=
  ⟨by decide,
    reset_keeps_flags pausedGame 12 8 5 0
      ⟨⟨[⟨6, 4⟩], directionUp, false⟩, [⟨0, 0⟩], 12, 8, true, true,
        "You ran into a wall!", 5⟩ (by decide)⟩

/-! ## Order of the two death checks -/

/-- C16: in an active state with loop mode off in which the new head is both
outside the board and equal to another segment of the shifted body (one of
the pre-tick segments `body[0 .. len-2]`), after `tick` `dead` is true and the
message is "You ran into yourself!": the body check runs after the wall check
and its message wins. The tick completes when no fruit is on the new head. -/
theorem tick_wall_and_self (g : snakeGame) (now : Int) (rnd : Nat → Nat) (b0 : vector)
    (rest : List vector)
    (hp : g.paused = false) (hd : g.player.dead = false) (hloop : g.loop = false)
    (hb : g.player.body = b0 :: rest)
    (_hout : ¬ (0 ≤ (b0.Add g.player.direction).x ∧ (b0.Add g.player.direction).x < g.width ∧
      0 ≤ (b0.Add g.player.direction).y ∧ (b0.Add g.player.direction).y < g.height))
    (hc : b0.Add g.player.direction ∈ (b0 :: rest).dropLast) :
    (b0.Add g.player.direction ∉ g.fruits → ∃ g', g.tick now rnd = some g') ∧
      ∀ g', g.tick now rnd = some g' →
        g'.player.dead = true ∧ g'.message = "You ran into yourself!" ∧
          g'.messageExpiration = now + messageDuration := by
  have hnh : g.newHead b0 = b0.Add g.player.direction := by
    unfold snakeGame.newHead
    simp [hloop]
  rw [← hnh] at hc ⊢
  refine ⟨fun hf => ⟨_, tick_completes g now rnd b0 rest hp hd hb hf⟩, ?_⟩
  intro g' ht
  have hs := tick_spec g now rnd b0 rest g' hp hd hb ht
  rw [hs.2.2.1, hs.2.2.2.2.2.2.2.1, hs.2.2.2.2.2.2.2.2.1]
  exact beforeFruits_collide_full g now b0 rest hc

/-- Instance of C16: the head leaves the board upwards onto a segment lying
there. -/
theorem tick_wall_and_self_witness :
    aboveBoardGame.tick 7 (fun _ => 0) =
        some ⟨⟨[⟨5, -1⟩, ⟨5, 0⟩, ⟨5, -1⟩], directionUp, true⟩, [⟨3, 3⟩], 10, 10, false,
          false, "You ran into yourself!", 3000000007⟩ ∧
      (true = true ∧ "You ran into yourself!" = "You ran into yourself!" ∧
        (3000000007 : Int) = 7 + messageDuration) :=
  ⟨by decide,
    (tick_wall_and_self aboveBoardGame 7 (fun _ => 0) ⟨5, 0⟩ [⟨5, -1⟩, ⟨6, -1⟩] rfl rfl rfl
      rfl (by decide) (by decide)).2
      ⟨⟨[⟨5, -1⟩, ⟨5, 0⟩, ⟨5, -1⟩], directionUp, true⟩, [⟨3, 3⟩], 10, 10, false,
        false, "You ran into yourself!", 3000000007⟩ (by decide)⟩

/-! ## When the snake dies -/

/-- C17, counterexample: a five-segment snake whose last two segments share the
cell (4,5), as right after growth, moves Left from (5,5) onto the cell of its
pre-tick last segment, inside the board, and dies: the other segment on that
cell has not moved away. -/
theorem tick_dead_iff_counterexample :
    grownTailGame.paused = false ∧ grownTailGame.player.dead = false ∧
      grownTailGame.player.body.getLast? = some ⟨4, 5⟩ ∧
      grownTailGame.newHead ⟨5, 5⟩ = ⟨4, 5⟩ ∧
      grownTailGame.outside ((⟨5, 5⟩ : vector).Add grownTailGame.player.direction) = false ∧
      grownTailGame.tick 7 (fun _ => 0) =
        some ⟨⟨[⟨4, 5⟩, ⟨5, 5⟩, ⟨5, 4⟩, ⟨4, 4⟩, ⟨4, 5⟩], directionLeft, true⟩, [⟨3, 3⟩], 10,
          10, false, false, "You ran into yourself!", 3000000007⟩ := by
  decide

/-- C17, amended: for an active state with non-empty body, whenever `tick`
completes, `dead` is true afterwards if and only if loop mode is off and the
moved head lies outside `[0,width) x [0,height)`, or the new head (moved, and
wrapped in loop mode) equals one of the pre-tick segments `body[0 .. len-2]`.
A move onto the cell of the pre-tick last segment is therefore fatal exactly
when loop mode is off and that cell is outside the board, or another pre-tick
segment lies on that cell; it is not fatal when no other pre-tick segment lies
on it (the cell is then vacated in the same tick) and no wall is hit. -/
theorem tick_dead_iff (g : snakeGame) (now : Int) (rnd : Nat → Nat) (b0 : vector)
    (rest : List vector) (g' : snakeGame)
    (hp : g.paused = false) (hd : g.player.dead = false)
    (hb : g.player.body = b0 :: rest) (ht : g.tick now rnd = some g') :
    (g'.player.dead = true ↔
        (g.loop = false ∧
          ¬ (0 ≤ (b0.Add g.player.direction).x ∧ (b0.Add g.player.direction).x < g.width ∧
            0 ≤ (b0.Add g.player.direction).y ∧
            (b0.Add g.player.direction).y < g.height)) ∨
        g.newHead b0 ∈ (b0 :: rest).dropLast) ∧
      (g.newHead b0 = (b0 :: rest).getLast (by simp) →
        (g'.player.dead = true ↔
          (g.loop = false ∧
            ¬ (0 ≤ ((b0 :: rest).getLast (by simp)).x ∧
              ((b0 :: rest).getLast (by simp)).x < g.width ∧
              0 ≤ ((b0 :: rest).getLast (by simp)).y ∧
              ((b0 :: rest).getLast (by simp)).y < g.height)) ∨
          (b0 :: rest).getLast (by simp) ∈ (b0 :: rest).dropLast)) ∧
      (g.newHead b0 = (b0 :: rest).getLast (by simp) →
        (b0 :: rest).getLast (by simp) ∉ (b0 :: rest).dropLast →
        (g.loop = true ∨
          (0 ≤ ((b0 :: rest).getLast (by simp)).x ∧
            ((b0 :: rest).getLast (by simp)).x < g.width ∧
            0 ≤ ((b0 :: rest).getLast (by simp)).y ∧
            ((b0 :: rest).getLast (by simp)).y < g.height)) →
        g'.player.dead = false) := by
  have hs := tick_spec g now rnd b0 rest g' hp hd hb ht
  have hout : g.outside (b0.Add g.player.direction) = true ↔
      ¬ (0 ≤ (b0.Add g.player.direction).x ∧ (b0.Add g.player.direction).x < g.width ∧
        0 ≤ (b0.Add g.player.direction).y ∧ (b0.Add g.player.direction).y < g.height) := by
    unfold snakeGame.outside
    simp only [Bool.or_eq_true, decide_eq_true_eq]
    omega
  have hiff : g'.player.dead = true ↔
      (g.loop = false ∧
        ¬ (0 ≤ (b0.Add g.player.direction).x ∧ (b0.Add g.player.direction).x < g.width ∧
          0 ≤ (b0.Add g.player.direction).y ∧
          (b0.Add g.player.direction).y < g.height)) ∨
      g.newHead b0 ∈ (b0 :: rest).dropLast := by
    rw [hs.2.2.1]
    by_cases hc : g.newHead b0 ∈ (b0 :: rest).dropLast
    · simp [hc, (beforeFruits_collide g now b0 rest hc).1]
    · cases hloop : g.loop with
      | true =>
        rw [(beforeFruits_loop_free g now b0 rest hloop hc).1, hd]
        simp [hc]
      | false =>
        cases ho : g.outside (b0.Add g.player.direction) with
        | true =>
          rw [(beforeFruits_wall g now b0 rest hloop ho).1]
          simp only [true_iff]
          exact Or.inl ⟨trivial, hout.1 ho⟩
        | false =>
          rw [(beforeFruits_inside g now b0 rest hloop ho hc).1, hd]
          have hin : ¬ ¬ (0 ≤ (b0.Add g.player.direction).x ∧
              (b0.Add g.player.direction).x < g.width ∧
              0 ≤ (b0.Add g.player.direction).y ∧
              (b0.Add g.player.direction).y < g.height) := by
            intro h
            rw [hout.2 h] at ho
            exact absurd ho (by simp)
          constructor
          · intro h
            exact absurd h (by simp)
          · rintro (⟨_, hno⟩ | hc')
            · exact absurd hno hin
            · exact absurd hc' hc
  have hmoved : g.loop = false → b0.Add g.player.direction = g.newHead b0 := by
    intro hl
    unfold snakeGame.newHead
    simp [hl]
  have hlastiff : g.newHead b0 = (b0 :: rest).getLast (by simp) →
      (g'.player.dead = true ↔
        (g.loop = false ∧
          ¬ (0 ≤ ((b0 :: rest).getLast (by simp)).x ∧
            ((b0 :: rest).getLast (by simp)).x < g.width ∧
            0 ≤ ((b0 :: rest).getLast (by simp)).y ∧
            ((b0 :: rest).getLast (by simp)).y < g.height)) ∨
        (b0 :: rest).getLast (by simp) ∈ (b0 :: rest).dropLast) := by
    intro hlast
    rw [hiff, ← hlast]
    constructor
    · rintro (⟨hl, ho⟩ | hc)
      · rw [hmoved hl] at ho
        exact Or.inl ⟨hl, ho⟩
      · exact Or.inr hc
    · rintro (⟨hl, ho⟩ | hc)
      · rw [← hmoved hl] at ho
        exact Or.inl ⟨hl, ho⟩
      · exact Or.inr hc
  refine ⟨hiff, hlastiff, ?_⟩
  intro hlast hc hwall
  cases hdead : g'.player.dead with
  | false => rfl
  | true =>
    rcases (hlastiff hlast).1 hdead with ⟨hloop, hout'⟩ | hc'
    · rcases hwall with h | h
      · rw [hloop] at h
        exact absurd h (by simp)
      · exact absurd h hout'
    · exact absurd hc' hc

/-- Instance of C17 as amended: a square loop of four segments on distinct
cells moves its head onto the cell its last segment is leaving, and stays
alive. -/
theorem tick_dead_iff_witness :
    tailChaseGame.newHead ⟨5, 5⟩ = ⟨4, 5⟩ ∧
      tailChaseGame.tick 7 (fun _ => 0) =
        some ⟨⟨[⟨4, 5⟩, ⟨5, 5⟩, ⟨5, 4⟩, ⟨4, 4⟩], directionLeft, false⟩, [⟨3, 3⟩], 10, 10,
          false, false, "", 0⟩ ∧
      false = false :=
  ⟨by decide, by decide,
    (tick_dead_iff tailChaseGame 7 (fun _ => 0) ⟨5, 5⟩ [⟨5, 4⟩, ⟨4, 4⟩, ⟨4, 5⟩]
      ⟨⟨[⟨4, 5⟩, ⟨5, 5⟩, ⟨5, 4⟩, ⟨4, 4⟩], directionLeft, false⟩, [⟨3, 3⟩], 10, 10,
        false, false, "", 0⟩ rfl rfl rfl (by decide)).2.2 (by decide) (by decide)
      (Or.inr (by decide))⟩

/-! ## The reversal guard over several key presses -/

theorem fruitLoop_inv (b0 : vector) :
    ∀ (k : Nat) (g : snakeGame) (i : Nat) (rnd : Nat → Nat) (g' : snakeGame),
      g.player.body.head? = some b0 → i + k = g.fruits.length →
      (∀ j f, g.fruits[j]? = some f → (j < i ∨ f ≠ b0) → f ∉ g.player.body) →
      snakeGame.fruitLoop k g i rnd = some g' →
      ∀ f ∈ g'.fruits, f ∉ g'.player.body := by
  intro k
  induction k with
  | zero =>
    intro g i rnd g' _ hik hinv h
    simp only [snakeGame.fruitLoop, Option.some.injEq] at h
    subst h
    intro f hf
    obtain ⟨j, hj⟩ := List.mem_iff_getElem?.1 hf
    have hlt : j < g.fruits.length := by
      by_contra hge
      rw [List.getElem?_eq_none (by omega)] at hj
      exact absurd hj (by simp)
    exact hinv j f hj (Or.inl (by omega))
  | succ k ih =>
    intro g i rnd g' hh hik hinv h
    have hi : i < g.fruits.length := by omega
    obtain ⟨b, rest, hb⟩ : ∃ b rest, g.player.body = b :: rest := by
      cases hbody : g.player.body with
      | nil => rw [hbody] at hh; exact absurd hh (by simp)
      | cons b rest => exact ⟨b, rest, rfl⟩
    have hb0 : b = b0 := by
      rw [hb] at hh
      simpa using hh
    subst hb0
    unfold snakeGame.fruitLoop at h
    rw [List.getElem?_eq_getElem hi] at h
    simp only [hb] at h
    split at h
    · split at h
      · exact absurd h (by simp)
      · rename_i p hp
        have hpm := (mem_choices g p).1 (randomPos_mem g _ p hp)
        refine ih _ (i + 1) _ g' (by simp) (by simp; omega) ?_ h
        intro j f hjf hcond
        simp only [List.getElem?_set] at hjf
        have hgrow : ∀ q, q ∉ g.player.body → q ∉ b :: rest ++ [(b :: rest).getLast (by simp)] := by
          intro q hq hmem
          rw [hb] at hq
          rcases List.mem_append.1 hmem with hm | hm
          · exact hq hm
          · rw [List.mem_singleton] at hm
            rw [hm] at hq
            exact hq (List.getLast_mem _)
        apply hgrow
        by_cases hij : i = j
        · rw [if_pos hij, if_pos hi] at hjf
          have hfp : p = f := Option.some.inj hjf
          rw [← hfp]
          exact hpm.2.1
        · rw [if_neg hij] at hjf
          apply hinv j f hjf
          rcases hcond with hlt | hne
          · exact Or.inl (by omega)
          · exact Or.inr hne
    · rename_i hne
      refine ih g (i + 1) rnd g' hh (by omega) ?_ h
      intro j f hjf hcond
      by_cases hij : j = i
      · subst hij
        rw [List.getElem?_eq_getElem hi] at hjf
        have hfe : g.fruits[j] = f := Option.some.inj hjf
        exact hinv j f (by rw [List.getElem?_eq_getElem hi, hfe]) (Or.inr (by rw [← hfe]; exact hne))
      · apply hinv j f hjf
        rcases hcond with hlt | hne'
        · exact Or.inl (by omega)
        · exact Or.inr hne'

/-- C14: "no fruit position equals any snake body segment" is a state
invariant: it holds after every completed `reset`, and every completed `tick`
(for every clock value and every random draw) of a state satisfying it yields
a state satisfying it, the tick that eats a fruit, replaces it and grows the
body included. -/
theorem fruitsOffBody_invariant :
    (∀ (g : snakeGame) (w h now : Int) (n : Nat) (g' : snakeGame),
        g.reset w h now n = some g' → g'.fruitsOffBody) ∧
      (∀ (g : snakeGame) (now : Int) (rnd : Nat → Nat) (g' : snakeGame),
        g.fruitsOffBody → g.tick now rnd = some g' → g'.fruitsOffBody) := by
  constructor
  · intro g w h now n g' hr
    unfold snakeGame.reset at hr
    simp only at hr
    split at hr
    · exact absurd hr (by simp)
    · rename_i p hp
      have hg := Option.some.inj hr
      subst hg
      have hm := (mem_choices _ _).1 (randomPos_mem _ _ _ hp)
      intro f hf
      have hfp : f = p := by simpa using hf
      rw [hfp]
      exact hm.2.1
  · intro g now rnd g' hinv ht
    by_cases hact : g.paused = true ∨ g.player.dead = true
    · have hnoop : g.tick now rnd = some g := by
        unfold snakeGame.tick
        rw [if_pos]
        rcases hact with h | h <;> simp [h]
      rw [hnoop] at ht
      rw [← Option.some.inj ht]
      exact hinv
    · have hp : g.paused = false := by
        cases h : g.paused with
        | false => rfl
        | true => exact absurd (Or.inl h) hact
      have hd : g.player.dead = false := by
        cases h : g.player.dead with
        | false => rfl
        | true => exact absurd (Or.inr h) hact
      cases hb : g.player.body with
      | nil =>
        unfold snakeGame.tick at ht
        rw [if_neg (by simp [hp, hd])] at ht
        simp only [hb] at ht
        exact absurd ht (by simp)
      | cons b0 rest =>
        rw [tick_active g now rnd b0 rest hp hd hb] at ht
        obtain ⟨hbody, _, hfr, _⟩ := beforeFruits_frame g now b0 rest
        refine fruitLoop_inv (g.newHead b0) g.fruits.length (g.beforeFruits now b0 rest) 0 rnd
          g' (by rw [hbody]; rfl) (by rw [hfr]; simp) ?_ ht
        intro j f hjf hcond
        rw [hfr] at hjf
        rw [hbody]
        have hne : f ≠ g.newHead b0 := by
          rcases hcond with h | h
          · exact absurd h (by omega)
          · exact h
        have hmem : f ∈ g.fruits := List.getElem?_mem hjf
        have hoff := hinv f hmem
        rw [hb] at hoff
        intro hin
        rcases List.mem_cons.1 hin with h | h
        · exact hne h
        · exact hoff (List.mem_of_mem_dropLast h)

/-- Instance of C14: the invariant after `reset 10 10` and after the tick that
eats the fruit at (5,4). -/
theorem fruitsOffBody_invariant_witness :
    (⟨⟨[⟨5, 5⟩], directionUp, false⟩, [⟨5, 4⟩], 10, 10, false, false, "", 0⟩ :
        snakeGame).fruitsOffBody ∧
      (⟨⟨[⟨5, 4⟩, ⟨5, 4⟩], directionUp, false⟩, [⟨5, 5⟩], 10, 10, false, false, "", 0⟩ :
        snakeGame).fruitsOffBody :=
  ⟨fruitsOffBody_invariant.1 zeroGame 10 10 0 54 _ (by decide),
    fruitsOffBody_invariant.2 fruitAheadGame 0 (fun _ => 54) _ (by decide) (by decide)⟩

/-! ## Tick period -/

theorem speed_bounds_table :
    ∀ k, k ≤ 63 → 1 ≤ speedLow k ∧ speedHigh k < 2305843009213693952 := by
  decide

theorem speedHigh_table :
    ∀ k, k ≤ 81 → 1 ≤ speedHigh k ∧ (k < 81 → speedHigh k < 2305843009213693952) := by
  decide

theorem speedUp_eq (p : Int) (h0 : 0 ≤ p) (h1 : p * 3 < 9223372036854775808) :
    speedUp p = p * 3 / 4 := by
  unfold speedUp
  have hw : wrapInt (p * 3) = p * 3 := wrapInt_of_isGoInt _ (by unfold isGoInt; omega)
  rw [hw, Int.tdiv_eq_ediv (by omega) (by omega)]

theorem speedDown_eq (p : Int) (h0 : 0 ≤ p) (h1 : p < 2305843009213693952) :
    speedDown p = p * 4 / 3 := by
  unfold speedDown
  have hw : wrapInt (p * 4) = p * 4 := wrapInt_of_isGoInt _ (by unfold isGoInt; omega)
  rw [hw, Int.tdiv_eq_ediv (by omega) (by omega)]

/-- A speed-down pressed at a period of `2^61` ns or more overflows. -/
theorem speedDown_overflow (p : Int) (h0 : 2305843009213693952 ≤ p)
    (h1 : p * 3 < 9223372036854775808) : speedDown p ≤ 0 := by
  unfold speedDown
  have hw : wrapInt (p * 4) = -(18446744073709551616 - p * 4) := by
    unfold wrapInt
    omega
  rw [hw, Int.neg_tdiv, Int.tdiv_eq_ediv (by omega) (by omega)]
  omega

theorem speedStaysPositive_start (ks : List speedKey) (p : Int)
    (h : speedStaysPositive ks p) : 0 < p := by
  cases ks with
  | nil => exact h
  | cons k ks =>
    cases k with
    | plus => exact h.1
    | minus => exact h.1

theorem speedStaysPositive_iff_guarded :
    ∀ (ks : List speedKey) (p : Int), 1 ≤ p → p * 3 < 9223372036854775808 →
      (speedStaysPositive ks p ↔ speedGuarded ks p) := by
  intro ks
  induction ks with
  | nil =>
    intro p hp _
    unfold speedStaysPositive speedGuarded
    exact ⟨fun _ => trivial, fun _ => by omega⟩
  | cons k ks ih =>
    intro p hp hlt
    cases k with
    | plus =>
      unfold speedStaysPositive speedGuarded
      have hup := speedUp_eq p (by omega) hlt
      by_cases h2 : 2 ≤ p
      · have := ih (speedUp p) (by rw [hup]; omega) (by rw [hup]; omega)
        rw [this]
        exact ⟨fun h => ⟨h2, h.2⟩, fun h => ⟨by omega, h.2⟩⟩
      · constructor
        · intro h
          have := speedStaysPositive_start ks _ h.2
          rw [hup] at this
          omega
        · intro h
          exact absurd h.1 h2
    | minus =>
      unfold speedStaysPositive speedGuarded
      by_cases hs : p < 2305843009213693952
      · have hdown := speedDown_eq p (by omega) hs
        have := ih (speedDown p) (by rw [hdown]; omega) (by rw [hdown]; omega)
        rw [this]
        exact ⟨fun h => ⟨hs, h.2⟩, fun h => ⟨by omega, h.2⟩⟩
      · constructor
        · intro h
          have h1 := speedStaysPositive_start ks _ h.2
          have h2 := speedDown_overflow p (by omega) hlt
          omega
        · intro h
          exact absurd h.1 hs

theorem speedStaysPositive_between :
    ∀ (ks : List speedKey) (k : Nat) (p : Int), k + ks.length ≤ 63 →
      speedLow k ≤ p → p ≤ speedHigh k → speedStaysPositive ks p := by
  intro ks
  induction ks with
  | nil =>
    intro k p hk hlo _
    have := (speed_bounds_table k (by simpa using hk)).1
    unfold speedStaysPositive
    omega
  | cons s ks ih =>
    intro k p hk hlo hhi
    simp only [List.length_cons] at hk
    have hb := speed_bounds_table k (by omega)
    have hlo1 : speedLow (k + 1) = speedLow k * 3 / 4 :=
      speedUp_eq _ (by omega) (by omega)
    have hhi1 : speedHigh (k + 1) = speedHigh k * 4 / 3 :=
      speedDown_eq _ (by omega) (by omega)
    cases s with
    | plus =>
      unfold speedStaysPositive
      refine ⟨by omega, ih (k + 1) _ (by omega) ?_ ?_⟩
      · rw [hlo1, speedUp_eq p (by omega) (by omega)]
        omega
      · rw [hhi1, speedUp_eq p (by omega) (by omega)]
        omega
    | minus =>
      unfold speedStaysPositive
      refine ⟨by omega, ih (k + 1) _ (by omega) ?_ ?_⟩
      · rw [hlo1, speedDown_eq p (by omega) (by omega)]
        omega
      · rw [hhi1, speedDown_eq p (by omega) (by omega)]
        omega

theorem speedStaysPositive_minus :
    ∀ (k j : Nat), j + k ≤ 81 →
      speedStaysPositive (List.replicate k speedKey.minus) (speedHigh j) := by
  intro k
  induction k with
  | zero =>
    intro j hj
    have := (speedHigh_table j (by omega)).1
    simp only [List.replicate_zero, speedStaysPositive]
    omega
  | succ k ih =>
    intro j hj
    have := (speedHigh_table j (by omega)).1
    simp only [List.replicate_succ, speedStaysPositive]
    exact ⟨by omega, ih (j + 1) (by omega)⟩

theorem speedStaysPositive_iff_prefixes :
    ∀ (ks : List speedKey) (p : Int),
      speedStaysPositive ks p ↔ ∀ j, j ≤ ks.length → 0 < speedAfter (ks.take j) p := by
  intro ks
  induction ks with
  | nil =>
    intro p
    simp [speedStaysPositive, speedAfter]
  | cons k ks ih =>
    intro p
    have hstep : ∀ q, (speedStaysPositive (k :: ks) p ↔ 0 < p ∧ speedStaysPositive ks q) →
        (∀ j, speedAfter ((k :: ks).take (j + 1)) p = speedAfter (ks.take j) q) →
        (speedStaysPositive (k :: ks) p ↔
          ∀ j, j ≤ (k :: ks).length → 0 < speedAfter ((k :: ks).take j) p) := by
      intro q hsp hafter
      rw [hsp, ih q]
      constructor
      · rintro ⟨h0, hrest⟩ j hj
        cases j with
        | zero => simpa [speedAfter] using h0
        | succ j =>
          rw [hafter j]
          exact hrest j (by simpa using hj)
      · intro h
        refine ⟨by simpa [speedAfter] using h 0 (by simp), ?_⟩
        intro j hj
        rw [← hafter j]
        exact h (j + 1) (by simpa using hj)
    cases k with
    | plus =>
      exact hstep (speedUp p) (by simp [speedStaysPositive])
        (fun j => by simp [speedAfter])
    | minus =>
      exact hstep (speedDown p) (by simp [speedStaysPositive])
        (fun j => by simp [speedAfter])

theorem speedStaysPositive_final (ks : List speedKey) (p : Int)
    (h : speedStaysPositive ks p) : 0 < speedAfter ks p := by
  have := (speedStaysPositive_iff_prefixes ks p).1 h ks.length (Nat.le_refl _)
  simpa using this

set_option maxRecDepth 100000 in
/-- C19, counterexample: 64 presses of `'+'` bring the period from 200 ms to 0,
and 82 presses of `'-'` overflow 64 bits and make it negative. -/
theorem speed_positive_counterexample :
    speedAfter (List.replicate 64 speedKey.plus) initialSpeed = 0 ∧
      speedAfter (List.replicate 82 speedKey.minus) initialSpeed < 0 := by
  decide

/-- C19, amended: starting from the initial tick period of 200 ms
(200000000 ns), with 64-bit wrapping multiplication and truncating division,
the period is strictly positive after every prefix of a finite sequence of
speed-up steps (`p := p*3/4`) and speed-down steps (`p := p*4/3`) exactly when
every speed-up in it is applied to a period of at least 2 ns and every
speed-down to a period below `2^61` ns. In particular it is strictly positive
after every sequence of at most 63 steps, and after up to 81 speed-down steps
in a row. -/
theorem speed_positive :
    (∀ ks : List speedKey,
        (∀ j, j ≤ ks.length → 0 < speedAfter (ks.take j) initialSpeed) ↔
          speedGuarded ks initialSpeed) ∧
      (∀ ks : List speedKey, ks.length ≤ 63 → 0 < speedAfter ks initialSpeed) ∧
      (∀ k : Nat, k ≤ 81 →
        0 < speedAfter (List.replicate k speedKey.minus) initialSpeed) :=
  ⟨fun ks => (speedStaysPositive_iff_prefixes ks initialSpeed).symm.trans
      (speedStaysPositive_iff_guarded ks initialSpeed (by decide) (by decide)),
    fun ks h => speedStaysPositive_final ks initialSpeed
      (speedStaysPositive_between ks 0 initialSpeed (by simpa using h)
        (Int.le_refl _) (Int.le_refl _)),
    fun k hk => speedStaysPositive_final _ initialSpeed
      (speedStaysPositive_minus k 0 (by omega))⟩

set_option maxRecDepth 100000 in
/-- Instance of C19 as amended: 63 presses of `'+'` leave a period of 1 ns, and
81 presses of `'-'` a period of 2636742127614089709 ns. -/
theorem speed_positive_witness :
    speedAfter (List.replicate 63 speedKey.plus) initialSpeed = 1 ∧
      speedAfter (List.replicate 81 speedKey.minus) initialSpeed = 2636742127614089709 ∧
      0 < speedAfter (List.replicate 63 speedKey.plus) initialSpeed ∧
      0 < speedAfter (List.replicate 81 speedKey.minus) initialSpeed :=
  ⟨by decide, by decide, speed_positive.2.1 (List.replicate 63 speedKey.plus) (by decide),
    speed_positive.2.2 81 (by decide)⟩
end Snek
